import Mathlib

/-!
Verification development for the `jsgen` JSON code generator
(`src/jsgen/jsgen.c`, `src/jsgen/jsgen.h`) together with the JSON builder
collaborator (`src/jsb.h`).

The development is a shallow embedding:
* the schema extractor (token loop, `handle_id`, `parse_field`,
  `parse_field_annotation`, `handle_semicolon`, `post_process_model`,
  `get_jsp_type`, `get_jsb_type`) is transcribed over an explicit token list
  standing for the stb lexer token stream;
* the JSON builder `Jsb` and its operations are transcribed from `src/jsb.h`;
* the JSON parsing collaborator `Jsp` (header `jsp.h` is not part of the
  sources given) is modelled from the spec, section 6;
* the code emitted by `gen_parse_field_body` / `gen_stringify_field` /
  `generate_model_code` is embedded semantically: each Lean branch mirrors
  the C text emitted for the corresponding field shape.

C strings are `String` / `List Char`; C `int` is `Int`; C `double` is `ℚ`
(with explicit hypotheses where the formatting width matters); undefined
behaviour (null dereference, out-of-bounds access) is `Option.none`.
-/

namespace Jsgen

/-- Tokens of the stb C lexer as consumed by `parse_file`.  `id` is `CLEX_id`
(with the lexer's string buffer), `strlit` is a double-quoted string token,
`ch` is a single-character token, `parseError` is `CLEX_parse_error`,
`eofT` is `CLEX_eof`, and `other` stands for any further token kind that
`parse_file` treats via its `default` switch case. -/
inductive CTok where
  | id (s : String)
  | strlit (s : String)
  | ch (c : Char)
  | parseError
  | eofT
  | other
deriving DecidableEq, Repr

/-- Field record, transcribed from the `Field` struct in `jsgen.c`. -/
structure Field where
  name : String
  aliasName : String
  has_alias : Bool
  type : String
  simple_type : String
  is_pointer : Bool
  is_array : Bool
  has_counter : Bool
  counter_field : String
  is_counter_field : Bool
  is_json_literal : Bool
deriving DecidableEq, Repr

/-- Zero-initialized `Field` (`Field field = {0}`). -/
def fieldZero : Field :=
  { name := "", aliasName := "", has_alias := false, type := "", simple_type := ""
    is_pointer := false, is_array := false, has_counter := false
    counter_field := "", is_counter_field := false, is_json_literal := false }

/-- Model record, transcribed from the `Model` struct in `jsgen.c`. -/
structure Model where
  name : String
  simple_name : String
  stringify : Bool
  parse : Bool
  fields : List Field
deriving DecidableEq, Repr

/-- Zero-initialized `Model` (`Model m = {0}`). -/
def modelZero : Model :=
  { name := "", simple_name := "", stringify := false, parse := false, fields := [] }

/-- Transcription of `js_getalias`: the JSON key of a field is its alias when
`has_alias` is set, else its name. -/
def js_getalias (f : Field) : String :=
  if f.has_alias then f.aliasName else f.name

/-- Recursion kernel of `get_jsp_type`, realized on the reversed character
list of the type string so that stripping the trailing `*`
(`type[len-1] == '*'` with `len > 1`) is the structural step `'*' :: c :: r ↦ c :: r`. -/
def jspTypeRev : List Char → Option String :=
  fun r =>
    let t := r.reverse
    if t = "int".toList then some "number"
    else if t = "float".toList then some "number"
    else if t = "double".toList then some "number"
    else if t = "long".toList then some "number"
    else if t = "size_t".toList then some "number"
    else if t = "bool".toList then some "boolean"
    else if t = "char*".toList then some "string"
    else match r with
      | '*' :: c :: rest => jspTypeRev (c :: rest)
      | _ => none

/-- Transcription of `get_jsp_type` (jsgen.c lines 62-78): map a declared type
string to the parse-time JSON representation kind. -/
def get_jsp_type (t : String) : Option String :=
  jspTypeRev t.toList.reverse

/-- Recursion kernel of `get_jsb_type`, same realization as `jspTypeRev`. -/
def jsbTypeRev : List Char → Option String :=
  fun r =>
    let t := r.reverse
    if t = "int".toList then some "int"
    else if t = "float".toList then some "number"
    else if t = "double".toList then some "number"
    else if t = "long".toList then some "int"
    else if t = "size_t".toList then some "int"
    else if t = "bool".toList then some "bool"
    else if t = "char*".toList then some "string"
    else match r with
      | '*' :: c :: rest => jsbTypeRev (c :: rest)
      | _ => none

/-- Transcription of `get_jsb_type` (jsgen.c lines 80-96): map a declared type
string to the stringify-time JSON representation kind. -/
def get_jsb_type (t : String) : Option String :=
  jsbTypeRev t.toList.reverse

/-- Write `is_counter_field = true` into a field
(`model->fields.data[j].is_counter_field = true`). -/
def markIcf (f : Field) : Field :=
  { f with is_counter_field := true }

/-- Inner loop of `post_process_model`: mark the first field whose name equals
the counter reference (`strcmp` match then `break`). -/
def markCounter : List Field → String → List Field
  | [], _ => []
  | f :: rest, c =>
    if f.name = c then markIcf f :: rest
    else f :: markCounter rest c

/-- Transcription of `post_process_model` (jsgen.c lines 98-110): for every
field carrying a counter reference, resolve it by name against the model's
fields and mark the referenced field.  The outer loop reads only `has_counter`
and `counter_field`, which the inner loop never writes, so folding over the
original field list is faithful. -/
def post_process_model (m : Model) : Model :=
  { m with
    fields := m.fields.foldl
      (fun fs f => if f.has_counter then markCounter fs f.counter_field else fs)
      m.fields }

/-- Parser state, transcribed from the `Parser` struct plus the live part of
the stb lexer state (`lex->token`, `lex->string`).  `models` is the registry,
`current` the working model. -/
structure PState where
  models : List Model
  current : Model
  level : Int
  in_typedef : Bool
  in_struct : Bool
  in_substruct : Bool
  is_field : Bool
  can_generate : Bool
  lexToken : CTok
  lexString : String
deriving DecidableEq, Repr

/-- Initial parser/lexer state of `parse_file` (`Parser p = {...}` with a
zero-initialized lexer and working model). -/
def pstateZero : PState :=
  { models := [], current := modelZero, level := 0, in_typedef := false
    in_struct := false, in_substruct := false, is_field := false
    can_generate := false, lexToken := .other, lexString := "" }

/-- Effect of loading one token into the lexer state: `lex->token` is set, and
`lex->string` is updated only for identifier and string tokens (the stb lexer
leaves the string buffer stale otherwise). -/
def lexSet (p : PState) (t : CTok) : PState :=
  { p with lexToken := t
           lexString := match t with
             | .id s => s
             | .strlit s => s
             | _ => p.lexString }

/-- Transcription of `stb_c_lexer_get_token` against a token list: pop the
next token into the lexer state; at end of stream the token becomes `CLEX_eof`. -/
def lexGet (p : PState) : List CTok → PState × List CTok
  | [] => ({ p with lexToken := .eofT }, [])
  | t :: rest => (lexSet p t, rest)

/-- Update the last field of a list in place (`da_last` dereference as target
of a field-annotation write); the list is known nonempty at every use. -/
def updateLast (g : Field → Field) : List Field → List Field
  | [] => []
  | [f] => [g f]
  | f :: rest => f :: updateLast g rest

/-- Shorthand: apply `updateLast` to the current model's fields. -/
def updLast (p : PState) (g : Field → Field) : PState :=
  { p with current := { p.current with fields := updateLast g p.current.fields } }

/-- Transcription of `parse_field_annotation` (jsgen.c lines 112-139).
The result is `none` exactly when the C code dereferences the `NULL` returned
by `da_last` on an empty field list (undefined behaviour); otherwise
`some (handled, state, remaining tokens)`.  The `jsgen_ignore` branch never
dereferences: it only decrements the length after an explicit `> 0` check. -/
def parse_field_annot (p : PState) (toks : List CTok) :
    Option (Bool × PState × List CTok) :=
  if !p.is_field then some (false, p, toks)
  else
    let lastOk : Bool := p.current.fields.length > 0
    if p.lexString = "alias" ∨ p.lexString = "jsgen_alias" then
      let q1 := lexGet p toks
      let q2 := lexGet q1.1 q1.2
      if lastOk then
        some (true, updLast q2.1 (fun f => { f with has_alias := true, aliasName := q2.1.lexString }), q2.2)
      else none
    else if p.lexString = "sized_by" ∨ p.lexString = "jsgen_sized_by" then
      let q1 := lexGet p toks
      let q2 := lexGet q1.1 q1.2
      if lastOk then
        some (true, updLast q2.1
          (fun f => { f with has_counter := true, is_array := true
                             counter_field := q2.1.lexString }), q2.2)
      else none
    else if p.lexString = "jsgen_ignore" then
      some (true,
        { p with current := { p.current with
            fields := if p.current.fields.length > 0 then p.current.fields.dropLast
                      else p.current.fields } }, toks)
    else if p.lexString = "jsgen_json_literal" ∨ p.lexString = "json_literal" then
      if lastOk then
        some (true, updLast p (fun f => { f with is_json_literal := true }), toks)
      else none
    else some (false, p, toks)

/-- Drain loop of `parse_field`: `while (p->lex->token != ']') get_token;`.
Structural on the token list; the C code would spin at end of stream, the
model simply stops there. -/
def drainToRB (p : PState) : List CTok → PState × List CTok
  | [] => (p, [])
  | t :: rest =>
    if p.lexToken = CTok.ch ']' then (p, t :: rest)
    else drainToRB (lexSet p t) rest

/-- Final bracket-peek step of `parse_field` (jsgen.c lines 160-169): save the
parse point, read one token, on `[` mark the last field `is_array = is_pointer
= true` and drain to `]`, then restore the parse point (the lexer's token and
string buffers are not restored — only the cursor is). -/
def parseFieldPeek (p : PState) (toks : List CTok) : PState × List CTok :=
  let saved := toks
  let (p, toks1) := lexGet p toks
  if p.lexToken = CTok.ch '[' then
    let p := updLast p (fun f => { f with is_array := true, is_pointer := true })
    let (p, _) := drainToRB p toks1
    (p, saved)
  else (p, saved)

/-- Transcription of `parse_field` (jsgen.c lines 141-170): read a field
declaration starting at the type identifier currently in the lexer. -/
def parse_field (p : PState) (toks : List CTok) (typePre : String) :
    PState × List CTok :=
  let field := { fieldZero with type := typePre ++ p.lexString
                                simple_type := p.lexString }
  let (p, toks) := lexGet p toks
  let (field, p, toks) :=
    if p.lexToken = CTok.ch '*' then
      let field := { field with is_pointer := true, type := field.type ++ "*" }
      let (p, toks) := lexGet p toks
      (field, p, toks)
    else (field, p, toks)
  match p.lexToken with
  | .id _ =>
    let field := { field with name := p.lexString }
    let p := { p with current := { p.current with fields := p.current.fields ++ [field] } }
    parseFieldPeek p toks
  | _ => (p, toks)

/-- Transcription of `is_json_initializer` (jsgen.c lines 172-174). -/
def is_json_initializer (s : String) : Bool :=
  s = "JSON" ∨ s = "JSGEN_JSON" ∨ s = "JSONS" ∨ s = "JSGEN_JSONS" ∨
  s = "JSONP" ∨ s = "JSGEN_JSONP"

/-- Transcription of `handle_id` (jsgen.c lines 176-211).  `none` propagates
the undefined behaviour of `parse_field_annotation`. -/
def handle_id (p : PState) (toks : List CTok) : Option (PState × List CTok) :=
  if is_json_initializer p.lexString then
    let m := { p.current with stringify := true, parse := true }
    let m :=
      if p.lexString = "JSONP" ∨ p.lexString = "JSGEN_JSONP" then
        { m with stringify := false }
      else if p.lexString = "JSONS" ∨ p.lexString = "JSGEN_JSONS" then
        { m with parse := false }
      else m
    some ({ p with can_generate := true, current := m }, toks)
  else if !p.can_generate then some (p, toks)
  else
    let (p, toks) := if p.lexString = "const" then lexGet p toks else (p, toks)
    if p.lexString = "typedef" then some ({ p with in_typedef := true }, toks)
    else if p.lexString = "struct" then
      if p.in_struct then some ({ p with in_substruct := true }, toks)
      else some ({ p with in_struct := true }, toks)
    else
      match parse_field_annot p toks with
      | none => none
      | some (true, p, toks) => some (p, toks)
      | some (false, _, _) =>
        if p.in_struct ∧ p.level = 0 then
          some ({ p with current := { p.current with
              name := if p.in_typedef then p.lexString else "struct " ++ p.lexString
              simple_name := p.lexString } }, toks)
        else if p.in_struct ∧ p.level = 1 then
          let (p, toks) := parse_field p toks (if p.in_substruct then "struct " else "")
          some ({ p with in_substruct := false, is_field := true }, toks)
        else some (p, toks)

/-- Transcription of `handle_semicolon` (jsgen.c lines 213-221): finalize the
current model at nesting level 0 (post-process, append, reset, clear flags). -/
def handle_semicolon (p : PState) : PState :=
  let p := { p with in_substruct := false }
  if p.level = 0 ∧ p.in_struct then
    { p with models := p.models ++ [post_process_model p.current]
             current := modelZero
             in_struct := false, in_typedef := false, can_generate := false }
  else p

/-- Test for `lex.token == CLEX_id` in the loop's cheap early exit. -/
def ctokIsId : CTok → Bool
  | .id _ => true
  | _ => false

/-- Outcome of the `parse_file` token loop: a return value, undefined
behaviour from an annotation null-dereference, or exhausted fuel. -/
inductive ROut where
  | ok (e : Int) (p : PState)
  | ub
  | noFuel
deriving DecidableEq, Repr

/-- Transcription of the token loop of `parse_file` (jsgen.c lines 233-254):
`while (stb_c_lexer_get_token(&lex)) { if (!p.can_generate && lex.token !=
CLEX_id) continue; switch ... }`.  Fuel-indexed; every iteration consumes at
least one token, so `length + 1` fuel always suffices. -/
def runLoop : Nat → PState → List CTok → ROut
  | 0, _, _ => .noFuel
  | _ + 1, p, [] => .ok 0 p
  | fuel + 1, p, t :: rest =>
    let p := lexSet p t
    if !p.can_generate ∧ !ctokIsId t then runLoop fuel p rest
    else
      match t with
      | .id _ =>
        match handle_id p rest with
        | none => .ub
        | some (p, rest) => runLoop fuel p rest
      | .ch '{' => runLoop fuel { p with level := p.level + 1 } rest
      | .ch '}' => runLoop fuel { p with level := p.level - 1 } rest
      | .ch ';' => runLoop fuel (handle_semicolon p) rest
      | .parseError => .ok (-1) p
      | _ => runLoop fuel p rest

/-- Scan of one file's token stream, the semantic content of `parse_file`
(reading the file and initializing the lexer are external). -/
def parse_file_toks (toks : List CTok) : ROut :=
  runLoop (toks.length + 1) pstateZero toks

/-- Index of the first field of the list carrying the given name (the
resolution order of the counter-reference inner loop). -/
def firstNameIdx : List Field → String → Option Nat
  | [], _ => none
  | f :: rest, c =>
    if f.name = c then some 0 else (firstNameIdx rest c).map (· + 1)

/-- Position `j` is the resolution target of some counter reference of the
field list: some field has a counter reference whose first-by-name match in
the list is at index `j`. -/
def counterRef (fields : List Field) (j : Nat) : Bool :=
  fields.any fun g => g.has_counter && (firstNameIdx fields g.counter_field == some j)

/-- Concrete extractor state: inside a record body, right after the bare
(non-pointer) field `float values`, about to process a `sized_by` annotation. -/
def c3State : PState :=
  { pstateZero with
    is_field := true, lexString := "sized_by"
    current := { modelZero with fields :=
      [{ fieldZero with name := "values", type := "float", simple_type := "float" }] } }

/-- Concrete extractor state: inside a record body, right after a field `x`,
with the short annotation keyword `ignore` in the lexer. -/
def c8State : PState :=
  { pstateZero with
    is_field := true, lexString := "ignore"
    current := { modelZero with fields := [{ fieldZero with name := "x" }] } }

/-- Concrete extractor state inside a record body with one field and the
lexer holding the given annotation keyword. -/
def annotState (kw : String) : PState :=
  { pstateZero with
    is_field := true, lexString := kw
    current := { modelZero with fields := [{ fieldZero with name := "x" }] } }

/-- Concrete extractor state inside a record body with an empty field list
and the lexer holding the given annotation keyword. -/
def annotStateEmpty (kw : String) : PState :=
  { pstateZero with
    is_field := true, lexString := kw
    current := modelZero }

/-- Concrete model with an array field sized by counter field `n` (as the
extractor plus `post_process_model` would leave it). -/
def c7Model : Model :=
  { modelZero with
    name := "struct demo", simple_name := "demo"
    fields :=
      [{ fieldZero with name := "items", type := "float*", simple_type := "float",
                        is_pointer := true, is_array := true, has_counter := true,
                        counter_field := "n" },
       { fieldZero with name := "n", type := "size_t", simple_type := "size_t" },
       { fieldZero with name := "ghost", type := "int", simple_type := "int",
                        has_counter := true, counter_field := "missing" }] }

/-! ### JSON builder, transcribed from `src/jsb.h` -/

/-- Builder states (`JsbState` in jsb.h; `JSB_STATE_OBJECT_KEY` is declared
but never used, `docEnd` is `JSB_STATE_END`). -/
inductive JsbState where
  | start
  | array
  | object
  | objectKey
  | docEnd
deriving DecidableEq, Repr

/-- Builder state, transcribed from the `Jsb` struct: the output buffer, the
state stack (`state[0..level]`, the head standing for `state[level]`, so
`level = stack.length - 1`), the `is_first`/`is_key` flags and the
pretty-print width `pp`.  The fixed `JSB_MAX_NESTING` bound is not modelled
(no claim concerns nesting beyond it). -/
structure Jsb where
  buffer : List Char
  stack : List JsbState
  is_first : Bool
  is_key : Bool
  pp : Nat
deriving DecidableEq, Repr

/-- Current nesting level (`jsb->level`). -/
def Jsb.level (j : Jsb) : Nat := j.stack.length - 1

/-- Zero-initialized builder with a given pretty-print width
(`Jsb jsb = {.pp = indent};`). -/
def jsbZero (pp : Nat) : Jsb :=
  { buffer := [], stack := [.start], is_first := false, is_key := false, pp := pp }

/-- Transcription of `jsb_sappend`: append one character; a NUL is written at
the end without advancing the count, leaving the buffer contents unchanged. -/
def jsb_sappend (j : Jsb) (c : Char) : Jsb :=
  if c = '\x00' then j else { j with buffer := j.buffer ++ [c] }

/-- Transcription of `jsb_sappends`: append a whole string (the trailing NUL
does not change the contents). -/
def jsb_sappends (j : Jsb) (s : String) : Jsb :=
  { j with buffer := j.buffer ++ s.toList }

/-- One step of the escaping loop of `jsb_escaped_nstring`: `\n`, `\t`, `"`
and `\\` are escaped, `\b` and `\r` are dropped, everything else is copied. -/
def jsb_escape_char (c : Char) : List Char :=
  if c = '\n' then ['\\', 'n']
  else if c = '\t' then ['\\', 't']
  else if c = '"' ∨ c = '\\' then ['\\', c]
  else if c = '\x08' ∨ c = '\x0d' then []
  else [c]

/-- Escaping loop over a character list. -/
def escList : List Char → List Char
  | [] => []
  | c :: cs => jsb_escape_char c ++ escList cs

/-- Transcription of `jsb_escaped_nstring`/`jsb_escaped_string`: the quoted,
escaped form of a string appended to the buffer. -/
def jsb_escaped_string (j : Jsb) (s : String) : Jsb :=
  { j with buffer := j.buffer ++ '"' :: escList s.toList ++ ['"'] }

/-- Transcription of `jsb_check_val` (`true` stands for the 0 return): a value
may be written in an array, in an object right after a key, or at the start of
the document. -/
def jsb_check_val (j : Jsb) : Bool :=
  match j.stack.headD .start with
  | .array => true
  | .object => j.is_key
  | .start => j.is_first
  | _ => false

/-- Transcription of `jsb_pretty_print_ch`: newline plus indentation, only
with a nonzero pretty width and not directly after a key. -/
def jsb_pretty (j : Jsb) : Jsb :=
  if j.pp ≠ 0 ∧ !j.is_key then
    { j with buffer := j.buffer ++ '\n' :: List.replicate (j.level * j.pp) ' ' }
  else j

/-- Transcription of `_jsb_init`: reset buffer and stack, set `is_first`
(`is_key` is not touched). -/
def jsbInitState (j : Jsb) : Jsb :=
  { j with buffer := [], stack := [.start], is_first := true }

/-- Transcription of `_jsb_end`: at level 0 terminate the document (the
buffer is NUL-terminated, contents unchanged) and park the base state at
`END`; at any other level nothing is mutated (the -1 return is discarded by
all callers). -/
def jsbEndState (j : Jsb) : Jsb :=
  if j.level ≠ 0 then j else { j with stack := .docEnd :: j.stack.tail }

/-- Transcription of `jsb_null`. -/
def jsb_null (j : Jsb) : Option Jsb :=
  if !jsb_check_val j then none
  else
    let j := if !j.is_first then jsb_sappend j ',' else j
    let j := jsb_pretty j
    let j := jsb_sappends j "null"
    some { j with is_first := false, is_key := false }

/-- A `jsb_null(jsb);` call whose result is discarded (generated code lines
for json-literal fallback and the dead null-pointer arm). -/
def jsb_null_ignore (j : Jsb) : Jsb :=
  (jsb_null j).getD j

/-- Transcription of `jsb_begin_object`. -/
def jsb_begin_object (j : Jsb) : Option Jsb :=
  let j := if j.level = 0 then jsbInitState j else j
  if !jsb_check_val j then none
  else
    let j := if !j.is_first then jsb_sappend j ',' else j
    let j := jsb_pretty j
    let j := jsb_sappend j '{'
    some { j with stack := .object :: j.stack, is_first := true, is_key := false }

/-- Transcription of `jsb_end_object`. -/
def jsb_end_object (j : Jsb) : Option Jsb :=
  if j.level < 1 ∨ j.stack.headD .start ≠ .object then none
  else
    let j := { j with stack := j.stack.tail }
    let j := jsb_pretty j
    let j := jsb_sappend j '}'
    let j := if j.level = 0 then jsbEndState j else j
    some { j with is_first := false }

/-- Transcription of `jsb_begin_array`. -/
def jsb_begin_array (j : Jsb) : Option Jsb :=
  let j := if j.level = 0 then jsbInitState j else j
  if !jsb_check_val j then none
  else
    let j := if !j.is_first then jsb_sappend j ',' else j
    let j := jsb_pretty j
    let j := jsb_sappend j '['
    some { j with stack := .array :: j.stack, is_first := true, is_key := false }

/-- Transcription of `jsb_end_array` (no explicit level check: the base state
is never `ARRAY`, which is what guards the pop). -/
def jsb_end_array (j : Jsb) : Option Jsb :=
  if j.stack.headD .start ≠ .array then none
  else
    let j := { j with stack := j.stack.tail }
    let j := jsb_pretty j
    let j := jsb_sappend j ']'
    let j := if j.level = 0 then jsbEndState j else j
    some { j with is_first := false }

/-- Transcription of `jsb_key`: comma if needed, the escaped quoted key, then
`": "`; afterwards `is_first` and `is_key` are both set. -/
def jsb_key (j : Jsb) (k : String) : Option Jsb :=
  if j.stack.headD .start ≠ .object ∨ j.is_key then none
  else
    let j := if !j.is_first then jsb_sappend j ',' else j
    let j := jsb_pretty j
    let j := jsb_escaped_string j k
    let j := jsb_sappends j ": "
    some { j with is_first := true, is_key := true }

/-- Decimal digit character. -/
def digitChar : Nat → Char
  | 0 => '0' | 1 => '1' | 2 => '2' | 3 => '3' | 4 => '4'
  | 5 => '5' | 6 => '6' | 7 => '7' | 8 => '8' | 9 => '9'
  | _ => '0'

/-- Fuel-indexed decimal representation of a natural number (most significant
digit first); fuel `n + 1` always suffices since `n / 10 < n` for `n ≥ 10`. -/
def natDecAux : Nat → Nat → List Char
  | 0, _ => []
  | fuel + 1, n =>
    if n < 10 then [digitChar n]
    else natDecAux fuel (n / 10) ++ [digitChar (n % 10)]

/-- Decimal representation of a natural number. -/
def natDec (n : Nat) : List Char := natDecAux (n + 1) n

/-- Model of `snprintf(.., "%d", value)`: sign plus decimal digits. -/
def intDec (i : Int) : List Char :=
  (if i < 0 then ['-'] else []) ++ natDec i.natAbs

/-- Left-pad a digit list with zeros to a given width. -/
def padZeros (k : Nat) (l : List Char) : List Char :=
  List.replicate (k - l.length) '0' ++ l

/-- Model of `snprintf(.., "%.*f", precision, value)` over `ℚ`: the value
rounded to `prec` fractional digits, printed with exactly `prec` fractional
digits and a leading sign taken from the value. -/
def numFmt (q : ℚ) (prec : Nat) : List Char :=
  let k : Int := round (q * (10 : ℚ) ^ prec)
  let a := k.natAbs
  (if q < 0 then ['-'] else []) ++
    natDec (a / 10 ^ prec) ++ '.' :: padZeros prec (natDec (a % 10 ^ prec))

/-- The C narrowing conversion of an integer argument to the 32-bit `int`
parameter of `jsb_int` (two's complement wrap-around). -/
def toCInt (i : Int) : Int :=
  (i + 2 ^ 31) % 2 ^ 32 - 2 ^ 31

/-- Transcription of `jsb_int` (the `%d` formatting is `intDec`; the `int`
parameter narrows any wider argument to 32 bits, modelled by `toCInt`). -/
def jsb_int (j : Jsb) (v : Int) : Option Jsb :=
  if !jsb_check_val j then none
  else
    let j := if !j.is_first then jsb_sappend j ',' else j
    let j := jsb_pretty j
    let j := jsb_sappends j ⟨intDec (toCInt v)⟩
    some { j with is_first := false, is_key := false }

/-- Transcription of `jsb_number` (the `%.*f` formatting is `numFmt`; the
64-byte `numbuf` of the C code holds at most 63 characters plus the NUL, so
longer renderings are truncated by `snprintf`). -/
def jsb_number (j : Jsb) (q : ℚ) (prec : Nat) : Option Jsb :=
  if !jsb_check_val j then none
  else
    let j := if !j.is_first then jsb_sappend j ',' else j
    let j := jsb_pretty j
    let j := jsb_sappends j ⟨(numFmt q prec).take 63⟩
    some { j with is_first := false, is_key := false }

/-- Transcription of `jsb_bool`. -/
def jsb_bool (j : Jsb) (b : Bool) : Option Jsb :=
  if !jsb_check_val j then none
  else
    let j := if !j.is_first then jsb_sappend j ',' else j
    let j := jsb_pretty j
    let j := jsb_sappends j (if b then "true" else "false")
    some { j with is_first := false, is_key := false }

/-- Transcription of the `jsb_string` macro over `jsb_nstring`: a null C
string becomes `jsb_null`, otherwise the escaped quoted string is emitted. -/
def jsb_string (j : Jsb) (s : Option String) : Option Jsb :=
  match s with
  | none => jsb_null j
  | some s =>
    if !jsb_check_val j then none
    else
      let j := if !j.is_first then jsb_sappend j ',' else j
      let j := jsb_pretty j
      let j := jsb_escaped_string j s
      some { j with is_first := false, is_key := false }

/-! ### Runtime values of generated-struct fields -/

/-- Runtime value of one C struct member, as read and written by the
generated code: integer scalars, floating scalars (as `ℚ`), booleans, char
pointers (`none` is `NULL`), array contents, pointers to nested records
(`none` is `NULL`; the pointee is opaque to this development and interpreted
by the nested-type oracle), and indeterminate contents. -/
inductive CVal where
  | vint (i : Int)
  | vnum (q : ℚ)
  | vbool (b : Bool)
  | vstr (s : Option String)
  | varr (elems : List CVal)
  | vptr (v : Option CVal)
  | vindet
deriving Repr

/-- A record value: the struct's members by name. -/
abbrev Rec := List (String × CVal)

/-- Read a struct member (`in->name`). -/
def recGet : Rec → String → CVal
  | [], _ => .vindet
  | (m, v) :: rest, n => if m = n then v else recGet rest n

/-- Write a struct member (`out->name = v`). -/
def recSet : Rec → String → CVal → Rec
  | [], n, v => [(n, v)]
  | (m, w) :: rest, n, v =>
    if m = n then (m, v) :: rest else (m, w) :: recSet rest n v

/-- The `in->name != NULL` test on a pointer-shaped value. -/
def cIsNull : CVal → Bool
  | .vstr none => true
  | .vptr none => true
  | _ => false

/-- The `(size_t)in->counter` read of a counter field (only integer-valued
counters are meaningful; the cast wraps modulo `2^64`). -/
def cSizeT : CVal → Option Nat
  | .vint i => some ((i % (2 ^ 64 : Int)).toNat)
  | _ => none

/-- Array contents behind a (possibly pointer-typed) array member. -/
def getArrElems : CVal → Option (List CVal)
  | .varr es => some es
  | .vptr (some (.varr es)) => some es
  | _ => none

/-- Write element `i` of an array buffer; an out-of-bounds write is dropped
(undefined behaviour in C). -/
def listSet : List CVal → Nat → CVal → List CVal
  | [], _, _ => []
  | _ :: rest, 0, v => v :: rest
  | w :: rest, n + 1, v => w :: listSet rest n v

/-! ### Semantics of the emitted stringify code (`gen_stringify_field`,
`generate_model_code`) -/

/-- Typed value write emitted at jsgen.c line 362:
`jsb_<jsb_type>(jsb, in-><name>[, 5])` — the precision argument 5 is passed
exactly for the `number` writer.  A value whose shape does not match the
writer (an array or pointer passed to a scalar writer) is type-invalid
generated code, modelled as `none`. -/
def topScalarWrite (jt : String) (v : CVal) (j : Jsb) : Option Jsb :=
  match jt, v with
  | "int", .vint i => jsb_int j i
  | "number", .vnum q => jsb_number j q 5
  | "bool", .vbool b => jsb_bool j b
  | "string", .vstr s => jsb_string j s
  | _, _ => none

/-- Typed element write emitted at jsgen.c line 370:
`jsb_<jsb_type>(jsb, in-><name>[i])` — no precision argument is emitted, so
for `number` elements the emitted call to `jsb_number` is missing an argument
(invalid generated code, modelled as `none`). -/
def elemScalarWrite (jt : String) (v : CVal) (j : Jsb) : Option Jsb :=
  match jt, v with
  | "int", .vint i => jsb_int j i
  | "bool", .vbool b => jsb_bool j b
  | "string", .vstr s => jsb_string j s
  | _, _ => none

/-- Element loop of the counted-array stringify branch: emit elements
`i, i+1, ...` for `cnt` iterations; reading past the stored contents is
undefined behaviour (`none`). -/
def stringifyElems (nst : String → CVal → Jsb → Option Jsb) (f : Field)
    (es : List CVal) : Nat → Nat → Jsb → Option Jsb
  | _, 0, j => some j
  | i, cnt + 1, j =>
    match es[i]? with
    | none => none
    | some v =>
      match (match get_jsb_type f.simple_type with
             | some jt => elemScalarWrite jt v j
             | none => nst f.simple_type v j) with
      | none => none
      | some j => stringifyElems nst f es (i + 1) cnt j

/-- Semantics of the code emitted by `gen_stringify_field` for one field.
`nst` interprets the emitted `_stringify_<simple_type>` call for nested
record types.  Counter fields are skipped; pointer fields are wrapped in
`if (in->name != NULL) { ... }`; then the key is written and the value is
dispatched exactly as the emitter dispatches on the field's resolved kind
and shape. -/
def stringify_field (nst : String → CVal → Jsb → Option Jsb)
    (ρ : Rec) (f : Field) (j : Jsb) : Option Jsb :=
  if f.is_counter_field then some j
  else if f.is_pointer ∧ cIsNull (recGet ρ f.name) then some j
  else
    match jsb_key j (js_getalias f) with
    | none => none
    | some j =>
      match get_jsb_type f.type with
      | some jt =>
        if f.is_json_literal then
          match recGet ρ f.name with
          | .vstr s =>
            let plen := (s.getD "").length
            if plen > 0 then
              some { j with buffer := j.buffer ++ (s.getD "").toList
                            is_first := false, is_key := false }
            else some (jsb_null_ignore j)
          | _ => none
        else topScalarWrite jt (recGet ρ f.name) j
      | none =>
        if f.is_array then
          match jsb_begin_array j with
          | none => none
          | some j =>
            match (if f.has_counter then
                    match cSizeT (recGet ρ f.counter_field),
                          getArrElems (recGet ρ f.name) with
                    | some n, some es => stringifyElems nst f es 0 n j
                    | _, _ => none
                  else some j) with
            | none => none
            | some j => jsb_end_array j
        else if f.is_pointer then
          match recGet ρ f.name with
          | .vptr none => some (jsb_null_ignore j)
          | .vptr (some w) => nst f.simple_type w j
          | _ => none
        else nst f.simple_type (recGet ρ f.name) j

/-- Field loop of the emitted `_stringify_<name>` body. -/
def stringify_fields (nst : String → CVal → Jsb → Option Jsb)
    (ρ : Rec) : List Field → Jsb → Option Jsb
  | [], j => some j
  | f :: fs, j =>
    match stringify_field nst ρ f j with
    | none => none
    | some j => stringify_fields nst ρ fs j

/-- Semantics of the emitted `_stringify_<name>` function: begin object,
stringify every field in declaration order, end object. -/
def stringify_model (nst : String → CVal → Jsb → Option Jsb)
    (m : Model) (ρ : Rec) (j : Jsb) : Option Jsb :=
  match jsb_begin_object j with
  | none => none
  | some j =>
    match stringify_fields nst ρ m.fields j with
    | none => none
    | some j => jsb_end_object j

/-- Semantics of the emitted `stringify_<name>_indent` wrapper (the
`stringify_<name>` macro passes indent 0): run `_stringify_<name>` on a
zero-initialized builder, `NULL` on failure, else the built text. -/
def stringify_model_top (nst : String → CVal → Jsb → Option Jsb)
    (m : Model) (ρ : Rec) (pp : Nat) : Option (List Char) :=
  match stringify_model nst m ρ (jsbZero pp) with
  | none => none
  | some j => some j.buffer

/-! ### JSON parsing collaborator.

Modelled from the spec: the header `jsp.h` consumed by the generated code is
not among the given sources; the `Jsp` state and its operations below follow
spec section 6 — a byte buffer with a cursor (represented by the remaining
suffix `rest`), a tagged value record (`string`/`number`/`boolean` members
persist until overwritten, `string = none` standing for a NULL pointer),
enter/exit operations for objects and arrays, key reading with an exhaustion
sentinel, generic value reading, a non-consuming array-length lookahead, and
value skipping; every operation is fallible with an `Int` error code. -/

/-- Value tags of the JSON parsing collaborator (`JSP_TYPE_*`). -/
inductive JspType where
  | tnone
  | tnull
  | tbool
  | tnumber
  | tstring
  | tobject
  | tarray
deriving DecidableEq, Repr

/-- Modelled from the spec: parser state of the JSON parsing collaborator. -/
structure Jsp where
  rest : List Char
  string : Option String
  number : ℚ
  boolean : Bool
  vtype : JspType
deriving Repr

/-- Modelled from the spec: `jsp_init` over a byte buffer (always succeeds in
the model; `jsp_free` releases resources and is a no-op on the state). -/
def jsp_init (s : List Char) : Jsp :=
  { rest := s, string := none, number := 0, boolean := false, vtype := .tnone }

/-- JSON whitespace. -/
def isWs (c : Char) : Bool :=
  c = ' ' ∨ c = '\n' ∨ c = '\t' ∨ c = '\x0d'

/-- Skip leading whitespace. -/
def skipWs : List Char → List Char
  | [] => []
  | c :: cs => if isWs c then skipWs cs else c :: cs

/-- Decimal digit test. -/
def isDig (c : Char) : Bool :=
  48 ≤ c.toNat ∧ c.toNat ≤ 57

/-- Decimal digit value. -/
def dval (c : Char) : Nat := c.toNat - 48

/-- Unescaping of a backslash escape in a JSON string: `\n` and `\t` map to
the control characters, any other escaped character maps to itself. -/
def unescChar (d : Char) : Char :=
  if d = 'n' then '\n' else if d = 't' then '\t' else d

/-- Modelled from the spec: read the body of a JSON string (after the opening
quote) up to the closing quote, unescaping backslash escapes. -/
def strRead (acc : List Char) : List Char → Option (String × List Char)
  | [] => none
  | c :: cs =>
    if c = '"' then some (⟨acc.reverse⟩, cs)
    else if c = '\\' then
      match cs with
      | [] => none
      | d :: ds => strRead (unescChar d :: acc) ds
    else strRead (c :: acc) cs

/-- Read a maximal run of decimal digits, accumulating value and count. -/
def readDigitsCnt (acc cnt : Nat) : List Char → Nat × Nat × List Char
  | [] => (acc, cnt, [])
  | c :: cs =>
    if isDig c then readDigitsCnt (10 * acc + dval c) (cnt + 1) cs
    else (acc, cnt, c :: cs)

/-- Consume one optional separating comma (with following whitespace). -/
def dropComma : List Char → List Char
  | [] => []
  | c :: cs => if c = ',' then skipWs cs else c :: cs

/-- Final stage of number reading: assemble the signed value from the
integer part and the fraction digits (value and count). -/
def numReadFrac (neg : Bool) (ip : Nat) (d2 : Nat × Nat × List Char) :
    Option (ℚ × List Char) :=
  some ((if neg then -1 else (1 : ℚ)) * ((ip : ℚ) + (d2.1 : ℚ) / (10 : ℚ) ^ d2.2.1),
    d2.2.2)

/-- Middle stage of number reading: after the integer digits, read an
optional fraction (a decimal point followed by at least one digit). -/
def numReadAfter (neg : Bool) (d1 : Nat × Nat × List Char) :
    Option (ℚ × List Char) :=
  match d1.2.2 with
  | c2 :: c3 :: rest2 =>
    if c2 = '.' ∧ isDig c3 then
      numReadFrac neg d1.1 (readDigitsCnt 0 0 (c3 :: rest2))
    else some ((if neg then -1 else (1 : ℚ)) * (d1.1 : ℚ), c2 :: c3 :: rest2)
  | _ => some ((if neg then -1 else (1 : ℚ)) * (d1.1 : ℚ), d1.2.2)

/-- First stage of number reading after the sign: at least one digit, then
the integer digits and the optional fraction. -/
def numReadCore (neg : Bool) (l : List Char) : Option (ℚ × List Char) :=
  match l with
  | [] => none
  | c :: cs =>
    if !isDig c then none
    else numReadAfter neg (readDigitsCnt 0 0 (c :: cs))

/-- Modelled from the spec: read a decimal JSON number (optional sign,
integer digits, optional fraction). -/
def numRead (l : List Char) : Option (ℚ × List Char) :=
  match l with
  | [] => none
  | c0 :: cs0 =>
    if c0 = '-' then numReadCore true cs0 else numReadCore false (c0 :: cs0)

/-- Modelled from the spec: enter a JSON object. -/
def jsp_begin_object (p : Jsp) : Int × Jsp :=
  match skipWs p.rest with
  | [] => (1, { p with rest := [] })
  | c :: cs =>
    if c = '{' then (0, { p with rest := cs }) else (1, { p with rest := c :: cs })

/-- Modelled from the spec: leave a JSON object. -/
def jsp_end_object (p : Jsp) : Int × Jsp :=
  match skipWs p.rest with
  | [] => (1, { p with rest := [] })
  | c :: cs =>
    if c = '}' then (0, { p with rest := cs }) else (1, { p with rest := c :: cs })

/-- Modelled from the spec: enter a JSON array. -/
def jsp_begin_array (p : Jsp) : Int × Jsp :=
  match skipWs p.rest with
  | [] => (1, { p with rest := [] })
  | c :: cs =>
    if c = '[' then (0, { p with rest := cs }) else (1, { p with rest := c :: cs })

/-- Modelled from the spec: leave a JSON array. -/
def jsp_end_array (p : Jsp) : Int × Jsp :=
  match skipWs p.rest with
  | [] => (1, { p with rest := [] })
  | c :: cs =>
    if c = ']' then (0, { p with rest := cs }) else (1, { p with rest := c :: cs })

/-- Modelled from the spec: read the next object key into `string`; returns
the nonzero sentinel at the closing brace (left unconsumed) or on malformed
input; consumes an optional separating comma and the colon after the key. -/
def jsp_key (p : Jsp) : Int × Jsp :=
  match skipWs p.rest with
  | [] => (1, { p with rest := [] })
  | c :: cs =>
    if c = '}' then (1, { p with rest := c :: cs })
    else
      match dropComma (c :: cs) with
      | [] => (1, { p with rest := [] })
      | c2 :: cs2 =>
        if c2 = '"' then
          match strRead [] cs2 with
          | none => (1, { p with rest := cs2 })
          | some kr =>
            match skipWs kr.2 with
            | [] => (1, { p with rest := [] })
            | c3 :: cs3 =>
              if c3 = ':' then (0, { p with rest := cs3, string := some kr.1 })
              else (1, { p with rest := c3 :: cs3 })
        else (1, { p with rest := c2 :: cs2 })

/-- Modelled from the spec: read one generic value into the tagged members;
consumes an optional separating comma; for objects and arrays only the
opening delimiter is consumed and the tag is set (`string` is cleared for
null, object and array values). -/
def jsp_value (p : Jsp) : Int × Jsp :=
  match dropComma (skipWs p.rest) with
  | [] => (1, { p with rest := [] })
  | c :: cs =>
    if c = '"' then
      match strRead [] cs with
      | none => (1, { p with rest := cs })
      | some sr => (0, { p with rest := sr.2, string := some sr.1, vtype := .tstring })
    else if c = '{' then (0, { p with rest := cs, string := none, vtype := .tobject })
    else if c = '[' then (0, { p with rest := cs, string := none, vtype := .tarray })
    else if "true".toList.isPrefixOf (c :: cs) then
      (0, { p with rest := (c :: cs).drop 4, boolean := true, vtype := .tbool })
    else if "false".toList.isPrefixOf (c :: cs) then
      (0, { p with rest := (c :: cs).drop 5, boolean := false, vtype := .tbool })
    else if "null".toList.isPrefixOf (c :: cs) then
      (0, { p with rest := (c :: cs).drop 4, string := none, vtype := .tnull })
    else
      match numRead (c :: cs) with
      | some qr => (0, { p with rest := qr.2, number := qr.1, vtype := .tnumber })
      | none => (1, { p with rest := c :: cs })

/-- Balanced scan for the array-length lookahead: count top-level commas up
to the matching closing bracket, skipping strings. -/
def arrLenScan : List Char → Nat → Bool → Bool → Nat → Nat
  | [], _, _, _, cnt => cnt
  | c :: cs, depth, inStr, esc, cnt =>
    if inStr then
      if esc then arrLenScan cs depth true false cnt
      else if c = '\\' then arrLenScan cs depth true true cnt
      else if c = '"' then arrLenScan cs depth false false cnt
      else arrLenScan cs depth true false cnt
    else if c = '"' then arrLenScan cs depth true false cnt
    else if c = '{' ∨ c = '[' then arrLenScan cs (depth + 1) false false cnt
    else if c = '}' then arrLenScan cs (depth - 1) false false cnt
    else if c = ']' then
      (if depth = 0 then cnt else arrLenScan cs (depth - 1) false false cnt)
    else if c = ',' ∧ depth = 0 then arrLenScan cs depth false false (cnt + 1)
    else arrLenScan cs depth false false cnt

/-- Modelled from the spec: number of elements of the array whose opening
bracket was just consumed — a lookahead that does not consume input. -/
def jsp_array_length (p : Jsp) : Nat :=
  match skipWs p.rest with
  | [] => 0
  | c :: cs => if c = ']' then 0 else arrLenScan (c :: cs) 0 false false 0 + 1

/-- Skip the remainder of a container value after its opening delimiter,
tracking nesting and strings. -/
def skipContainer : List Char → Nat → Bool → Bool → List Char
  | [], _, _, _ => []
  | c :: cs, depth, inStr, esc =>
    if inStr then
      if esc then skipContainer cs depth true false
      else if c = '\\' then skipContainer cs depth true true
      else if c = '"' then skipContainer cs depth false false
      else skipContainer cs depth true false
    else if c = '"' then skipContainer cs depth true false
    else if c = '{' ∨ c = '[' then skipContainer cs (depth + 1) false false
    else if c = '}' ∨ c = ']' then
      (if depth = 0 then cs else skipContainer cs (depth - 1) false false)
    else skipContainer cs depth false false

/-- Skip a scalar token up to the next structural character. -/
def skipScalar : List Char → List Char
  | [] => []
  | c :: cs =>
    if c = ',' ∨ c = '}' ∨ c = ']' then c :: cs else skipScalar cs

/-- Modelled from the spec: skip one complete value (the fall-through arm of
the generated key dispatch). -/
def jsp_skip (p : Jsp) : Int × Jsp :=
  match dropComma (skipWs p.rest) with
  | [] => (1, { p with rest := [] })
  | c :: cs =>
    if c = '"' then
      match strRead [] cs with
      | none => (1, { p with rest := cs })
      | some sr => (0, { p with rest := sr.2 })
    else if c = '{' ∨ c = '[' then (0, { p with rest := skipContainer cs 0 false false })
    else (0, { p with rest := skipScalar (c :: cs) })

/-! ### Semantics of the emitted parse code (`gen_parse_field_body`,
`generate_model_code`) -/

/-- Outcome of one emitted field body: an early `return err;` out of the
whole `_parse_<name>` function, or fall-through to the next loop iteration. -/
inductive BodyOut where
  | ret (e : Int) (p : Jsp) (ρ : Rec)
  | cont (p : Jsp) (ρ : Rec)
deriving Repr

/-- C conversion of a `double` to an integer type (truncation toward zero),
for the emitted assignment `out-><name> = jsp->number;` on integer fields. -/
def cDoubleToInt (q : ℚ) : Int :=
  q.num.tdiv q.den

/-- The emitted scalar assignment `out-><name> = jsp-><jsp_type>;`, converted
according to the field's declared type; an assignment into a field whose
declared type is not a matching scalar is type-invalid generated code
(`vindet`). -/
def scalarAssign (jt : String) (t : String) (p : Jsp) : CVal :=
  if jt = "boolean" then .vbool p.boolean
  else if t = "int" ∨ t = "long" ∨ t = "size_t" then .vint (cDoubleToInt p.number)
  else if t = "float" ∨ t = "double" then .vnum p.number
  else .vindet

/-- Transcription of the raw-span scan emitted for `json_literal` fields
(jsgen.c lines 267-281): scan with a delimiter balance count, a backslash
skipping the next byte; the scanned span (opening delimiter included) is the
captured literal. -/
def litScan (ob cb : Char) : List Char → Nat → List Char → List Char × List Char
  | [], _, acc => (acc.reverse, [])
  | c :: cs, bc, acc =>
    if bc = 0 then (acc.reverse, c :: cs)
    else if c = '\\' then
      match cs with
      | [] => ((c :: acc).reverse, [])
      | d :: ds => litScan ob cb ds bc (d :: c :: acc)
    else if c = ob then litScan ob cb cs (bc + 1) (c :: acc)
    else if c = cb then litScan ob cb cs (bc - 1) (c :: acc)
    else litScan ob cb cs bc (c :: acc)

/-- Element loop of the counted-array parse branch
(`for (size_t i = 0; i < len; i++)` with `if (err) break;`): produce the
elements written into the freshly allocated buffer; the loop's error is
reported but the caller overwrites it with the `jsp_end_array` result. -/
def parseElemsCounted (nst : String → Jsp → CVal → Int × Jsp × CVal)
    (f : Field) : Nat → Jsp → Int × Jsp × List CVal
  | 0, p => (0, p, [])
  | n + 1, p =>
    match get_jsp_type f.simple_type with
    | some ajt =>
      let ep := jsp_value p
      if ep.1 = 0 then
        let v := scalarAssign ajt f.simple_type ep.2
        let rec1 := parseElemsCounted nst f n ep.2
        (rec1.1, rec1.2.1, v :: rec1.2.2)
      else (ep.1, ep.2, [])
    | none =>
      let er := nst f.simple_type p .vindet
      if er.1 = 0 then
        let rec1 := parseElemsCounted nst f n er.2.1
        (rec1.1, rec1.2.1, er.2.2 :: rec1.2.2)
      else (er.1, er.2.1, [er.2.2])

/-- Element loop of the uncounted-array parse branch
(`while (jsp->offset < jsp->length && jsp->content[jsp->offset] != ']')`,
a raw cursor probe): elements are written in place into the field's existing
storage; fuel-indexed (the source loop is bounded by cursor progress). -/
def parseElemsUncounted (nst : String → Jsp → CVal → Int × Jsp × CVal)
    (f : Field) : Nat → Jsp → List CVal → Nat → Int × Jsp × List CVal
  | 0, p, es, _ => (0, p, es)
  | fuel + 1, p, es, i =>
    match p.rest with
    | [] => (0, p, es)
    | c :: _ =>
      if c = ']' then (0, p, es)
      else
        match get_jsp_type f.simple_type with
        | some ajt =>
          let ep := jsp_value p
          if ep.1 = 0 then
            parseElemsUncounted nst f fuel ep.2
              (listSet es i (scalarAssign ajt f.simple_type ep.2)) (i + 1)
          else (ep.1, ep.2, es)
        | none =>
          let er := nst f.simple_type p (es.getD i .vindet)
          if er.1 = 0 then
            parseElemsUncounted nst f fuel er.2.1 (listSet es i er.2.2) (i + 1)
          else (er.1, er.2.1, listSet es i er.2.2)

/-- Tail of an emitted parse-body branch around a fallible call: fall
through on success, `return err;` on failure (the record state is the same
either way). -/
def bodyFinish (er : Int × Jsp) (ρ : Rec) : BodyOut :=
  if er.1 = 0 then .cont er.2 ρ else .ret er.1 er.2 ρ

/-- Semantics of the code emitted by `gen_parse_field_body` for an array
field (jsgen.c lines 298-323). -/
def parse_array_body (nst : String → Jsp → CVal → Int × Jsp × CVal)
    (f : Field) (p : Jsp) (ρ : Rec) : BodyOut :=
  let ep := jsp_begin_array p
  if ep.1 = 0 then
    if f.has_counter then
      let p := ep.2
      let len := jsp_array_length p
      let ρ := recSet ρ f.counter_field (.vint len)
      let er := parseElemsCounted nst f len p
      let ρ := recSet ρ f.name
        (.vptr (some (.varr (er.2.2 ++ List.replicate (len - er.2.2.length) .vindet))))
      bodyFinish (jsp_end_array er.2.1) ρ
    else
      let p := ep.2
      let es := (getArrElems (recGet ρ f.name)).getD []
      let er := parseElemsUncounted nst f (p.rest.length + 1) p es 0
      let ρ := recSet ρ f.name (.varr er.2.2)
      bodyFinish (jsp_end_array er.2.1) ρ
  else .ret ep.1 ep.2 ρ

/-- The `json_literal` capture step emitted at jsgen.c lines 266-282: scan
the raw span of the value whose opening delimiter `jsp_value` consumed,
allocate and store it verbatim, and leave the cursor past it (`jsp_skip_end`
informs the collaborator; the cursor is already advanced in the model). -/
def litStep (f : Field) (p : Jsp) (ρ : Rec) : Jsp × Rec :=
  if f.is_json_literal then
    let ob : Char := if p.vtype = .tobject then '{' else '['
    let cb : Char := if p.vtype = .tobject then '}' else ']'
    let sp := litScan ob cb p.rest 1 [ob]
    ({ p with rest := sp.2 }, recSet ρ f.name (.vstr (some ⟨sp.1⟩)))
  else (p, ρ)

/-- The string-copy step emitted at jsgen.c lines 283-294: for a pointer
field, set the counter (when present) to the string length and the member to
a copy of the string, or to `NULL` on length zero; for a non-pointer field a
bounded `strncpy` into a fixed buffer (never produced by the extractor for a
string-kind field), modelled as storing the value when present. -/
def strCopyStep (f : Field) (p : Jsp) (ρ : Rec) : BodyOut :=
  if f.is_pointer then
    let sLen : Nat := match p.string with
      | some s => s.length
      | none => 0
    let ρ := if f.has_counter then recSet ρ f.counter_field (.vint sLen) else ρ
    let ρ := if sLen > 0 then recSet ρ f.name (.vstr p.string)
             else recSet ρ f.name (.vstr none)
    .cont p ρ
  else
    match p.string with
    | some s => .cont p (recSet ρ f.name (.vstr (some s)))
    | none => .cont p ρ

/-- Semantics of the code emitted by `gen_parse_field_body` for one field,
dispatching exactly as the emitter does on the resolved kind and shape.
`nst` interprets the emitted `_parse_<simple_type>` calls for nested record
types (receiving the storage's current contents).  For string-kind fields the
`json_literal` capture (when present) is followed by the unconditional string
copy — the source has no else between the two blocks. -/
def parse_field_body (nst : String → Jsp → CVal → Int × Jsp × CVal)
    (f : Field) (p : Jsp) (ρ : Rec) : BodyOut :=
  match get_jsp_type f.type with
  | some jt =>
    let ep := jsp_value p
    if ep.1 = 0 then
      if jt = "string" then
        let pρ := litStep f ep.2 ρ
        strCopyStep f pρ.1 pρ.2
      else .cont ep.2 (recSet ρ f.name (scalarAssign jt f.type ep.2))
    else .ret ep.1 ep.2 ρ
  | none =>
    if f.is_array then parse_array_body nst f p ρ
    else if f.is_pointer then
      let ep := jsp_value p
      if ep.1 = 0 ∧ ep.2.vtype = .tnull then .cont ep.2 (recSet ρ f.name (.vptr none))
      else
        let er := nst f.simple_type ep.2 .vindet
        bodyFinish (er.1, er.2.1) (recSet ρ f.name (.vptr (some er.2.2)))
    else
      let er := nst f.simple_type p (recGet ρ f.name)
      bodyFinish (er.1, er.2.1) (recSet ρ f.name er.2.2)

/-- The emitted key-dispatch chain: first non-counter field whose alias
matches the key (counter fields are skipped by the emitter). -/
def findField (fields : List Field) (k : String) : Option Field :=
  fields.find? (fun g => !g.is_counter_field && js_getalias g == k)

/-- Outcome of one iteration of the emitted
`while (jsp_key(jsp) == 0) { ... }` loop: early function return, loop exit at
the key sentinel, or continue (each carrying the key that was dispatched). -/
inductive StepOut where
  | ret (k : String) (e : Int) (p : Jsp) (ρ : Rec)
  | exitLoop (p : Jsp) (ρ : Rec)
  | cont (k : String) (p : Jsp) (ρ : Rec)
deriving Repr

/-- One iteration of the emitted parse loop: read a key; dispatch to the
matching field's body, or skip the value of an unmatched key. -/
def parse_step (nst : String → Jsp → CVal → Int × Jsp × CVal)
    (fields : List Field) (p : Jsp) (ρ : Rec) : StepOut :=
  let ep := jsp_key p
  if ep.1 = 0 then
    let p := ep.2
    let k := p.string.getD ""
    match findField fields k with
    | some f =>
      match parse_field_body nst f p ρ with
      | .ret e p ρ => .ret k e p ρ
      | .cont p ρ => .cont k p ρ
    | none =>
      let es := jsp_skip p
      if es.1 = 0 then .cont k es.2 ρ else .ret k es.1 es.2 ρ
  else .exitLoop ep.2 ρ

/-- The emitted parse loop, fuel-indexed (`none` is exhausted fuel — a
modelling artifact, every theorem supplies sufficient fuel): iterate
`parse_step` until exit, then `jsp_end_object`. -/
def parse_loop (nst : String → Jsp → CVal → Int × Jsp × CVal)
    (fields : List Field) : Nat → Jsp → Rec → Option (Int × Jsp × Rec)
  | 0, _, _ => none
  | fuel + 1, p, ρ =>
    match parse_step nst fields p ρ with
    | .ret _ e p ρ => some (e, p, ρ)
    | .exitLoop p ρ =>
      let ep := jsp_end_object p
      some (ep.1, ep.2, ρ)
    | .cont _ p ρ => parse_loop nst fields fuel p ρ

/-- The keys dispatched by a run of the parse loop, in order (observer with
the same recursion structure as `parse_loop`). -/
def parse_keys (nst : String → Jsp → CVal → Int × Jsp × CVal)
    (fields : List Field) : Nat → Jsp → Rec → List String
  | 0, _, _ => []
  | fuel + 1, p, ρ =>
    match parse_step nst fields p ρ with
    | .ret k _ _ _ => [k]
    | .exitLoop _ _ => []
    | .cont k p ρ => k :: parse_keys nst fields fuel p ρ

/-- Semantics of the emitted `_parse_<name>` function: enter the object, run
the key loop, leave the object (the loop performs `jsp_end_object` at exit). -/
def parse_model_fn (nst : String → Jsp → CVal → Int × Jsp × CVal)
    (fields : List Field) (fuel : Nat) (p : Jsp) (ρ : Rec) :
    Option (Int × Jsp × Rec) :=
  let ep := jsp_begin_object p
  if ep.1 = 0 then parse_loop nst fields fuel ep.2 ρ
  else some (ep.1, ep.2, ρ)

/-- Semantics of the emitted `parse_<name>` wrapper: initialize the parser
over the input text and run `_parse_<name>` (`jsp_free` is a no-op on the
state). -/
def parse_model_top (nst : String → Jsp → CVal → Int × Jsp × CVal)
    (fields : List Field) (fuel : Nat) (json : List Char) (ρ : Rec) :
    Option (Int × Jsp × Rec) :=
  parse_model_fn nst fields fuel (jsp_init json) ρ

/-- Write element `i` of the batch-parser output array. -/
def listSetRec : List Rec → Nat → Rec → List Rec
  | [], _, _ => []
  | _ :: rest, 0, v => v :: rest
  | w :: rest, n + 1, v => w :: listSetRec rest n v

/-- Element loop of the emitted `_parse_<name>_list` function: parse each
element into its freshly allocated (indeterminate) slot; an element failure
is the emitted `if (err) return err;` (left injection — no reset of the
outputs), completion is the right injection. -/
def listElemLoop (elem : Jsp → Rec → Option (Int × Jsp × Rec)) :
    Jsp → List Rec → Nat → Nat → Option (Sum (Int × Jsp × List Rec) (Jsp × List Rec))
  | p, out, _, 0 => some (.inr (p, out))
  | p, out, i, n + 1 =>
    match elem p (out.getD i []) with
    | none => none
    | some (e, p2, r) =>
      let out2 := listSetRec out i r
      if e = 0 then listElemLoop elem p2 out2 (i + 1) n
      else some (.inl (e, p2, out2))

/-- Semantics of the emitted `_parse_<name>_list` function (jsgen.c lines
439-454): enter the array, count elements by lookahead, set `*out_count`,
allocate `*out`, parse each element (an element failure returns the error
with the outputs left as they are), close the array, and only if closing
fails reset `*out = NULL; *out_count = 0;`. -/
def parse_model_list (elem : Jsp → Rec → Option (Int × Jsp × Rec))
    (garbage : Rec) (p : Jsp) (out0 : Option (List Rec)) (cnt0 : Nat) :
    Option (Int × Jsp × Option (List Rec) × Nat) :=
  let ep := jsp_begin_array p
  if ep.1 = 0 then
    let p := ep.2
    let len := jsp_array_length p
    let out := List.replicate len garbage
    match listElemLoop elem p out 0 len with
    | none => none
    | some (.inl (e2, p2, out2)) => some (e2, p2, some out2, len)
    | some (.inr (p2, out2)) =>
      let e3 := jsp_end_array p2
      if e3.1 = 0 then some (0, e3.2, some out2, len)
      else some (e3.1, e3.2, none, 0)
  else some (ep.1, ep.2, out0, cnt0)

/-! ### Concrete inputs for counterexamples and witnesses -/

/-- Nested-type stringify oracle that always fails (used only where the
oracle is never invoked). -/
def nstNone : String → CVal → Jsb → Option Jsb := fun _ _ _ => none

/-- Nested-type parse oracle that always fails (used only where the oracle
is never invoked). -/
def nstFail : String → Jsp → CVal → Int × Jsp × CVal := fun _ p v => (1, p, v)

/-- Builder state inside an object, right before a field is emitted. -/
def c5Jsb : Jsb :=
  { buffer := ['{'], stack := [.object, .start], is_first := true, is_key := false, pp := 0 }

/-- A bare-bracket array field of scalar element type (`int xs[...]`). -/
def c5FieldInt : Field :=
  { fieldZero with name := "xs", type := "int", simple_type := "int",
                   is_array := true, is_pointer := true }

/-- A bare-bracket array field of record element type (`struct foo xs[...]`). -/
def c5FieldNested : Field :=
  { fieldZero with name := "xs", type := "struct foo", simple_type := "foo",
                   is_array := true, is_pointer := true }

/-- Record holding a one-element array under `xs`. -/
def c5Rec : Rec := [("xs", CVal.varr [CVal.vint 7])]

/-- Fields of a model with a `sized_by("n")` char-pointer field `s` and its
counter field `n` (as left by the extractor and `post_process_model`). -/
def c2Fields : List Field :=
  [{ fieldZero with name := "s", type := "char*", simple_type := "char",
                    is_pointer := true, is_array := true, has_counter := true,
                    counter_field := "n" },
   { fieldZero with name := "n", type := "int", simple_type := "int",
                    is_counter_field := true }]

/-- Zero-initialized record for `c2Fields`. -/
def c2Zero : Rec := [("s", CVal.vstr none), ("n", CVal.vint 0)]

/-- Fields of a one-int-field model used by the batch-parser counterexample. -/
def c4Fields : List Field :=
  [{ fieldZero with name := "a", type := "int", simple_type := "int" }]

/-- Zero-initialized record for `c4Fields`. -/
def c4Zero : Rec := [("a", CVal.vint 0)]

/-- Concrete element parser for the batch parser: the generated
`_parse_<name>` of the one-field model. -/
def c4Elem : Jsp → Rec → Option (Int × Jsp × Rec) :=
  fun p r => parse_model_fn nstFail c4Fields 10 p r

/-! ### Round-trip development (claim C1): the text stringify emits, and the
side conditions under which parse reads it back exactly -/

/-- Characters whose escaped form reads back identically: everything except
the two characters the escaping loop drops (`\b` and `\r`). -/
def okChar (c : Char) : Bool :=
  !(c = '\x08' || c = '\x0d')

/-- The field is written by stringify (`false` exactly when the emitted
null-pointer wrap `if (in-><name> != NULL)` suppresses the member). -/
def presB (ρ : Rec) (f : Field) : Bool :=
  !(f.is_pointer && cIsNull (recGet ρ f.name))

/-- Shape agreement of a scalar-kind field with its stored value: declared
type and value constructor line up, integers fit the 32-bit `int` parameter
of `jsb_int`, numbers are exact at the emitter's fixed precision 5 and small
enough for the 64-byte format buffer, strings are null or nonempty without
the dropped characters. -/
def valOK (f : Field) (v : CVal) : Bool :=
  match v with
  | .vint i => (f.type == "int" || f.type == "long" || f.type == "size_t")
      && decide (-(2 ^ 31) ≤ i) && decide (i < 2 ^ 31)
  | .vnum q => (f.type == "float" || f.type == "double")
      && ((q * (10 : ℚ) ^ 5).den == 1)
      && decide (-((10 : ℚ) ^ 9) < q) && decide (q < (10 : ℚ) ^ 9)
  | .vbool _ => f.type == "bool"
  | .vstr none => f.type == "char*" && f.is_pointer
  | .vstr (some s) =>
    f.type == "char*" && f.is_pointer && s.length != 0 && s.toList.all okChar
  | _ => false

/-- Round-trip well-formedness of one field: a plain scalar-kind member (no
array, no counter role, no json literal) whose JSON key survives escaping and
whose stored value agrees with its declared type. -/
def fieldOK (f : Field) (v : CVal) : Bool :=
  !f.is_counter_field && !f.is_array && !f.has_counter && !f.is_json_literal &&
    (js_getalias f).toList.all okChar && valOK f v

/-- The separating comma the builder writes before a non-first member. -/
def sepComma (first : Bool) : List Char :=
  if first then [] else [',']

/-- The value text stringify emits for one present scalar field. -/
def valChars (v : CVal) : List Char :=
  match v with
  | .vint i => intDec i
  | .vnum q => numFmt q 5
  | .vbool b => if b then "true".toList else "false".toList
  | .vstr (some s) => '"' :: escList s.toList ++ ['"']
  | _ => []

/-- The key/value text stringify emits for one present field. -/
def fieldPart (f : Field) (v : CVal) : List Char :=
  '"' :: escList (js_getalias f).toList ++ '"' :: ':' :: ' ' :: valChars v

/-- The member text stringify emits for a field list, given the builder's
`is_first` flag on entry. -/
def partsFrom (ρ : Rec) : List Field → Bool → List Char
  | [], _ => []
  | f :: fs, first =>
    if presB ρ f then
      sepComma first ++ fieldPart f (recGet ρ f.name) ++ partsFrom ρ fs false
    else partsFrom ρ fs first

/-- The record updates the parse loop performs on the text stringify
produced: every present field is written back with its original value. -/
def writeBack (ρ : Rec) (fs : List Field) (ρc : Rec) : Rec :=
  fs.foldl (fun r f => if presB ρ f then recSet r f.name (recGet ρ f.name) else r) ρc

/-- Builder state inside the top-level object with pretty-printing off. -/
def objState (buf : List Char) (b : JsbState) (first : Bool) : Jsb :=
  { buffer := buf, stack := [.object, b], is_first := first, is_key := false, pp := 0 }

/-- Builder state right after a key has been written. -/
def keyedState (buf : List Char) (b : JsbState) : Jsb :=
  { buffer := buf, stack := [.object, b], is_first := true, is_key := true, pp := 0 }

/-- The head of the text (if any) is not a decimal digit. -/
def noDigStart : List Char → Bool
  | [] => true
  | c :: _ => !isDig c

/-- The head of the text (if any) terminates a number: not a digit and not a
decimal point. -/
def numStop : List Char → Bool
  | [] => true
  | c :: _ => !isDig c && !(c = '.')

/-- Round-trip witness model: one field of each scalar kind. -/
def c1Fields : List Field :=
  [{ fieldZero with name := "a", type := "int", simple_type := "int" },
   { fieldZero with name := "b", type := "double", simple_type := "double" },
   { fieldZero with name := "c", type := "bool", simple_type := "bool" },
   { fieldZero with name := "s", type := "char*", simple_type := "char",
                    is_pointer := true }]

/-- Round-trip witness model with both generators enabled. -/
def c1Model : Model :=
  { modelZero with name := "m", stringify := true, parse := true, fields := c1Fields }

/-- Witness record for the round trip. -/
def c1Rec : Rec :=
  [("a", CVal.vint (-3)), ("b", CVal.vnum (5 / 4)), ("c", CVal.vbool true),
   ("s", CVal.vstr (some "h\ni"))]

/-- Zero-initialized record for `c1Fields` (`Model out = {0}`). -/
def c1Zero : Rec :=
  [("a", CVal.vint 0), ("b", CVal.vnum 0), ("c", CVal.vbool false),
   ("s", CVal.vstr none)]

/-- Round-trip counterexample model: a single string field holding `""`. -/
def c1CexField : Field :=
  { fieldZero with name := "s", type := "char*", simple_type := "char",
                   is_pointer := true }

/-- One-field model for the round-trip counterexample. -/
def c1CexModel : Model :=
  { modelZero with name := "m", stringify := true, parse := true,
                   fields := [c1CexField] }

/-- Counterexample record: the member holds the empty string (not NULL). -/
def c1CexRec : Rec := [("s", CVal.vstr (some ""))]

/-- Zero-initialized record for the counterexample model. -/
def c1CexZero : Rec := [("s", CVal.vstr none)]

/-- The stringify output of the round-trip witness record. -/
def c1OutChars : List Char :=
  "\x7b\"a\": -3,\"b\": 1.25000,\"c\": true,\"s\": \"h\\ni\"\x7d".toList

/-- The stringify output of the round-trip counterexample record. -/
def c1CexOut : List Char := "\x7b\"s\": \"\"\x7d".toList

-- ===== Helper lemmas =====

/-- Last element of a list extended by one element. -/
theorem concat_getLast? (l : List Char) (a : Char) : (l ++ [a]).getLast? = some a := by
  induction l with
  | nil => rfl
  | cons b bs ih =>
    rw [List.cons_append, List.getLast?_cons, ih]
    cases bs <;> simp

/-- Unfolding the pointer-strip step of both type resolvers: when the type
string is none of the directly tabulated names and ends in `*` over a
nonempty base, one trailing `*` is stripped and the lookup recurses. -/
theorem typeRev_star (l : List Char) (hl : l ≠ [])
    (h7 : ∀ u ∈ ["int", "float", "double", "long", "size_t", "bool", "char*"],
      ('*' :: l).reverse ≠ u.toList) :
    jspTypeRev ('*' :: l) = jspTypeRev l ∧ jsbTypeRev ('*' :: l) = jsbTypeRev l := by
  obtain ⟨c, rest, rfl⟩ : ∃ c rest, l = c :: rest := by
    cases l with
    | nil => exact absurd rfl hl
    | cons c rest => exact ⟨c, rest, rfl⟩
  constructor
  · rw [jspTypeRev]
    simp only [if_neg (h7 "int" (by simp)), if_neg (h7 "float" (by simp)),
      if_neg (h7 "double" (by simp)), if_neg (h7 "long" (by simp)),
      if_neg (h7 "size_t" (by simp)), if_neg (h7 "bool" (by simp)),
      if_neg (h7 "char*" (by simp))]
  · rw [jsbTypeRev]
    simp only [if_neg (h7 "int" (by simp)), if_neg (h7 "float" (by simp)),
      if_neg (h7 "double" (by simp)), if_neg (h7 "long" (by simp)),
      if_neg (h7 "size_t" (by simp)), if_neg (h7 "bool" (by simp)),
      if_neg (h7 "char*" (by simp))]

/-- A nonempty string has a nonempty character list. -/
theorem toList_ne_nil (s : String) (h : s ≠ "") : s.toList ≠ [] := by
  intro hd
  apply h
  cases s with
  | mk d =>
    cases d with
    | nil => rfl
    | cons c cs => simp [String.toList] at hd

/-- Strings with equal character lists are equal. -/
theorem string_toList_inj (s t : String) (h : s.toList = t.toList) : s = t := by
  cases s with
  | mk d1 =>
    cases t with
    | mk d2 =>
      simp only [String.toList] at h
      exact congrArg String.mk h

/-- Closed form of the in-place update of the last list element. -/
theorem updateLast_eq (g : Field → Field) (l : List Field) :
    updateLast g l = l.dropLast ++ (l.getLast?.map g).toList := by
  induction l with
  | nil => rfl
  | cons f rest ih =>
    cases rest with
    | nil => rfl
    | cons f2 rest2 =>
      show f :: updateLast g (f2 :: rest2) = _
      rw [ih, List.getLast?_cons_cons]
      rfl

-- ===== Claim theorems =====

/-- C6, counterexample: the type resolver maps a doubly-starred scalar type
to a scalar representation kind (`int**` resolves like `int`), contradicting
the claim that two or more trailing pointer markers are not resolved. -/
theorem claim_C6_cex :
    get_jsp_type "int**" = some "number" ∧ get_jsb_type "int**" = some "int" := by
  constructor <;> rfl

/-- C6 (amended): the resolvers strip trailing pointer markers recursively,
one `*` per step: for every nonempty base type other than the directly
tabulated `char` (whose starred form `char*` is matched directly), the starred
type resolves exactly as the base type, at any pointer depth. -/
theorem claim_C6 (s : String) (h0 : s ≠ "") (hc : s ≠ "char") :
    get_jsp_type (s ++ "*") = get_jsp_type s ∧
    get_jsb_type (s ++ "*") = get_jsb_type s := by
  have hdata : (s ++ "*").toList = s.toList ++ ['*'] := by
    simp [String.toList, String.data_append]
  have hrev : (s ++ "*").toList.reverse = '*' :: s.toList.reverse := by
    rw [hdata]; simp
  have hl : s.toList.reverse ≠ [] := by
    simp only [ne_eq, List.reverse_eq_nil_iff]
    exact toList_ne_nil s h0
  have h7 : ∀ u ∈ ["int", "float", "double", "long", "size_t", "bool", "char*"],
      ('*' :: s.toList.reverse).reverse ≠ u.toList := by
    intro u hu
    have hrr : ('*' :: s.toList.reverse).reverse = s.toList ++ ['*'] := by simp
    rw [hrr]
    fin_cases hu
    · intro h; have := concat_getLast? s.toList '*'; rw [h] at this; simp at this
    · intro h; have := concat_getLast? s.toList '*'; rw [h] at this; simp at this
    · intro h; have := concat_getLast? s.toList '*'; rw [h] at this; simp at this
    · intro h; have := concat_getLast? s.toList '*'; rw [h] at this; simp at this
    · intro h; have := concat_getLast? s.toList '*'; rw [h] at this; simp at this
    · intro h; have := concat_getLast? s.toList '*'; rw [h] at this; simp at this
    · intro h
      apply hc
      apply string_toList_inj
      have hch : ("char*" : String).toList = "char".toList ++ ['*'] := by rfl
      rw [hch] at h
      exact List.append_cancel_right h
  obtain ⟨h1, h2⟩ := typeRev_star s.toList.reverse hl h7
  constructor
  · rw [get_jsp_type, get_jsp_type, hrev, h1]
  · rw [get_jsb_type, get_jsb_type, hrev, h2]

/-- C6, witness: the amended claim applied to the already-starred base
`int*`, resolving `int**` like `int*`. -/
theorem claim_C6_w :
    ("int*" : String) ≠ "" ∧ ("int*" : String) ≠ "char" ∧
    get_jsp_type ("int*" ++ "*") = get_jsp_type "int*" := by
  refine ⟨by decide, by decide, ?_⟩
  exact (claim_C6 "int*" (by decide) (by decide)).1

/-- C3, counterexample: `sized_by` applied to a field declared without a
pointer marker sets `counter_field`, `has_counter` and `is_array`, but leaves
`is_pointer` at `false` — it does not set `isPointer` to `true` as claimed. -/
theorem claim_C3_cex :
    (parse_field_annot c3State [CTok.ch '(', CTok.strlit "n", CTok.ch ')']).map
      (fun r => (r.1,
        r.2.1.current.fields.map (fun f => (f.is_pointer, f.is_array, f.has_counter, f.counter_field)),
        r.2.2))
    = some (true, [(false, true, true, "n")], [CTok.ch ')']) := by
  rfl

/-- C3 (amended): the `sized_by` annotation sets the current (last) field's
`counter_field` to the parenthesized string, sets `has_counter` and
`is_array := true`, consumes the two argument tokens, and leaves everything
else — in particular `is_pointer` — unchanged. -/
theorem claim_C3 (p : PState) (s : String) (rest : List CTok)
    (hfield : p.is_field = true)
    (hkw : p.lexString = "sized_by" ∨ p.lexString = "jsgen_sized_by")
    (hne : p.current.fields ≠ []) :
    ∃ g p', p.current.fields.getLast? = some g ∧
      parse_field_annot p (CTok.ch '(' :: CTok.strlit s :: rest) = some (true, p', rest) ∧
      p'.current.fields = p.current.fields.dropLast ++
        [{ g with has_counter := true, is_array := true, counter_field := s }] ∧
      p'.models = p.models := by
  obtain ⟨g, hg⟩ : ∃ g, p.current.fields.getLast? = some g := by
    cases hgl : p.current.fields.getLast? with
    | none => exact absurd (List.getLast?_eq_none_iff.mp hgl) hne
    | some g => exact ⟨g, rfl⟩
  have hlen : 0 < p.current.fields.length := List.length_pos.mpr hne
  have hstep : parse_field_annot p (CTok.ch '(' :: CTok.strlit s :: rest) =
      some (true,
        updLast { p with lexToken := CTok.strlit s, lexString := s }
          (fun f => { f with has_counter := true, is_array := true, counter_field := s }),
        rest) := by
    rcases hkw with h | h <;>
      simp [parse_field_annot, hfield, h, lexGet, lexSet, hlen]
  refine ⟨g, _, hg, hstep, ?_, rfl⟩
  show updateLast _ p.current.fields = _
  rw [updateLast_eq, hg]
  rfl

/-- C3, witness: the amended claim applied to the concrete state `c3State`. -/
theorem claim_C3_w :
    c3State.is_field = true ∧ c3State.current.fields ≠ [] ∧
    (∃ g p', c3State.current.fields.getLast? = some g ∧
      parse_field_annot c3State [CTok.ch '(', CTok.strlit "n", CTok.ch ')'] =
        some (true, p', [CTok.ch ')']) ∧
      p'.current.fields = c3State.current.fields.dropLast ++
        [{ g with has_counter := true, is_array := true, counter_field := "n" }] ∧
      p'.models = c3State.models) :=
  ⟨rfl, by decide, claim_C3 c3State "n" [CTok.ch ')'] rfl (Or.inl rfl) (by decide)⟩

/-- C8, counterexample: the short keyword `ignore` is not recognized by the
annotation processor — it is reported unhandled and the just-added field is
not removed (the state is returned unchanged). -/
theorem claim_C8_cex :
    parse_field_annot c8State [] = some (false, c8State, []) ∧
    c8State.current.fields.length = 1 := by
  constructor <;> rfl

/-- C8 (amended): only the full-form keyword `jsgen_ignore` is recognized; it
consumes no argument tokens and removes the just-added (last) field from the
model; the short form `ignore` is not an annotation keyword and is left
unhandled with the model unchanged. -/
theorem claim_C8 (p : PState) (toks : List CTok) (hfield : p.is_field = true) :
    (p.lexString = "jsgen_ignore" →
      parse_field_annot p toks =
        some (true, { p with current := { p.current with fields := p.current.fields.dropLast } }, toks)) ∧
    (p.lexString = "ignore" → parse_field_annot p toks = some (false, p, toks)) := by
  constructor
  · intro h
    cases hfs : p.current.fields with
    | nil => simp [parse_field_annot, hfield, h, hfs]
    | cons f rest => simp [parse_field_annot, hfield, h, hfs]
  · intro h
    simp [parse_field_annot, hfield, h]

/-- C8, witness: the amended claim applied to `annotState`. -/
theorem claim_C8_w :
    (annotState "jsgen_ignore").lexString = "jsgen_ignore" ∧
    (annotState "ignore").lexString = "ignore" ∧
    parse_field_annot (annotState "jsgen_ignore") [] =
      some (true, { annotState "jsgen_ignore" with
        current := { (annotState "jsgen_ignore").current with
          fields := (annotState "jsgen_ignore").current.fields.dropLast } }, []) ∧
    parse_field_annot (annotState "ignore") [] = some (false, annotState "ignore", []) :=
  ⟨rfl, rfl, (claim_C8 (annotState "jsgen_ignore") [] rfl).1 rfl,
    (claim_C8 (annotState "ignore") [] rfl).2 rfl⟩

/-- C10: applying `jsgen_ignore` with an empty field list is a guarded no-op
(the length check fails, the state is returned unchanged), while every other
annotation keyword dereferences the null `da_last` pointer on an empty field
list (undefined behaviour, modelled as `none`). -/
theorem claim_C10 (p : PState) (toks : List CTok) (hfield : p.is_field = true)
    (hempty : p.current.fields = []) :
    (p.lexString = "jsgen_ignore" → parse_field_annot p toks = some (true, p, toks)) ∧
    ((p.lexString = "alias" ∨ p.lexString = "jsgen_alias" ∨ p.lexString = "sized_by" ∨
      p.lexString = "jsgen_sized_by" ∨ p.lexString = "jsgen_json_literal" ∨
      p.lexString = "json_literal") →
      parse_field_annot p toks = none) := by
  constructor
  · intro h
    have hstep : parse_field_annot p toks =
        some (true, { p with current := { p.current with
          fields := p.current.fields.dropLast } }, toks) := by
      simp [parse_field_annot, hfield, h, hempty]
    have h2 : p.current.fields.dropLast = p.current.fields := by rw [hempty]; rfl
    rw [hstep, h2]
  · intro hkw
    rcases hkw with h | h | h | h | h | h <;>
      simp [parse_field_annot, hfield, h, hempty]

/-- C10, witness: the guarded no-op and the null-dereference cases at the
concrete empty-model states. -/
theorem claim_C10_w :
    (annotStateEmpty "jsgen_ignore").current.fields = [] ∧
    parse_field_annot (annotStateEmpty "jsgen_ignore") [] =
      some (true, annotStateEmpty "jsgen_ignore", []) ∧
    parse_field_annot (annotStateEmpty "alias") [] = none ∧
    parse_field_annot (annotStateEmpty "sized_by") [] = none ∧
    parse_field_annot (annotStateEmpty "json_literal") [] = none :=
  ⟨rfl, (claim_C10 (annotStateEmpty "jsgen_ignore") [] rfl rfl).1 rfl,
    (claim_C10 (annotStateEmpty "alias") [] rfl rfl).2 (Or.inl rfl),
    (claim_C10 (annotStateEmpty "sized_by") [] rfl rfl).2 (Or.inr (Or.inr (Or.inl rfl))),
    (claim_C10 (annotStateEmpty "json_literal") [] rfl rfl).2
      (Or.inr (Or.inr (Or.inr (Or.inr (Or.inr rfl)))))⟩

/-- C9, counterexample: a token stream consisting of a single malformed token
(no generation-enabling keyword seen) scans successfully — the parse error is
skipped by the cheap early exit, and the scan returns 0, not a failure. -/
theorem claim_C9_cex :
    parse_file_toks [CTok.parseError] =
      ROut.ok 0 { pstateZero with lexToken := CTok.parseError } := by
  rfl

/-- C9 (amended): a malformed token makes the scan fail (return -1) exactly
when generation is enabled at that point; while generation is not enabled,
malformed tokens are skipped by the `!can_generate && token != CLEX_id`
early exit and scanning continues. -/
theorem claim_C9 (fuel : Nat) (p : PState) (rest : List CTok) :
    (p.can_generate = true →
      runLoop (fuel + 1) p (CTok.parseError :: rest) =
        ROut.ok (-1) (lexSet p CTok.parseError)) ∧
    (p.can_generate = false →
      runLoop (fuel + 1) p (CTok.parseError :: rest) =
        runLoop fuel (lexSet p CTok.parseError) rest) := by
  constructor <;> intro h <;> simp [runLoop, lexSet, ctokIsId, h]

/-- Double marking is a single marking. -/
theorem markIcf_idem (f : Field) : markIcf (markIcf f) = markIcf f := rfl

/-- Marking the first name-match changes `getD` exactly at the first index
carrying the referenced name. -/
theorem markCounter_getD (fs : List Field) (c : String) (j : Nat) :
    (markCounter fs c).getD j fieldZero =
      if firstNameIdx fs c = some j then markIcf (fs.getD j fieldZero)
      else fs.getD j fieldZero := by
  induction fs generalizing j with
  | nil => simp [markCounter, firstNameIdx]
  | cons f rest ih =>
    by_cases hf : f.name = c
    · cases j with
      | zero => simp [markCounter, firstNameIdx, hf]
      | succ n => simp [markCounter, firstNameIdx, hf]
    · cases j with
      | zero => simp [markCounter, firstNameIdx, hf, Option.map_eq_some']
      | succ n =>
        have hmap : (Option.map (· + 1) (firstNameIdx rest c) = some (n + 1)) ↔
            firstNameIdx rest c = some n := by
          cases h : firstNameIdx rest c <;> simp
        simp only [markCounter, firstNameIdx, if_neg hf, List.getD_cons_succ, hmap, ih n]

/-- Marking a counter field does not change any field name, hence does not
change first-by-name resolution. -/
theorem firstNameIdx_markCounter (fs : List Field) (c' c : String) :
    firstNameIdx (markCounter fs c') c = firstNameIdx fs c := by
  induction fs with
  | nil => rfl
  | cons f rest ih =>
    by_cases hf : f.name = c' <;> simp [markCounter, hf, firstNameIdx, ih, markIcf]

/-- Marking preserves the length of the field list. -/
theorem markCounter_length (fs : List Field) (c : String) :
    (markCounter fs c).length = fs.length := by
  induction fs with
  | nil => rfl
  | cons f rest ih => by_cases hf : f.name = c <;> simp [markCounter, hf, ih]

/-- Characterization of the counter-resolution fold of `post_process_model`:
position `j` of the result is the original field, with `is_counter_field`
forced to `true` exactly when some reference in the iteration list resolves
(first-by-name) to `j`. -/
theorem ppFold_getD (refs : List Field) :
    ∀ (fs : List Field) (j : Nat),
    (refs.foldl (fun a f => if f.has_counter then markCounter a f.counter_field else a) fs).getD
        j fieldZero =
      if refs.any (fun g => g.has_counter && (firstNameIdx fs g.counter_field == some j)) then
        markIcf (fs.getD j fieldZero)
      else fs.getD j fieldZero := by
  induction refs with
  | nil => intro fs j; simp
  | cons f rest ih =>
    intro fs j
    by_cases hc : f.has_counter
    · rw [List.foldl_cons, if_pos hc, ih]
      have hidx : ∀ c, firstNameIdx (markCounter fs f.counter_field) c = firstNameIdx fs c :=
        firstNameIdx_markCounter fs f.counter_field
      simp only [hidx, markCounter_getD]
      by_cases hA : firstNameIdx fs f.counter_field = some j
      · by_cases hB :
            rest.any (fun g => g.has_counter && (firstNameIdx fs g.counter_field == some j)) = true
        · simp [hB, hA, hc, markIcf_idem]
        · simp [hB, hA, hc]
      · by_cases hB :
            rest.any (fun g => g.has_counter && (firstNameIdx fs g.counter_field == some j)) = true
        · simp [hB, hA, hc]
        · simp [hB, hA, hc]
    · rw [List.foldl_cons, if_neg hc, ih]
      simp [hc]

/-- Length invariance of the counter-resolution fold. -/
theorem ppFold_length (refs : List Field) :
    ∀ fs : List Field,
    (refs.foldl (fun a f => if f.has_counter then markCounter a f.counter_field else a)
        fs).length = fs.length := by
  induction refs with
  | nil => intro fs; rfl
  | cons f rest ih =>
    intro fs
    by_cases hc : f.has_counter <;>
      simp [List.foldl_cons, hc, ih, markCounter_length]

/-- C7: at finalization, `post_process_model` resolves every field's counter
reference first-by-name against the model's fields and sets `is_counter_field`
on the resolved field; every other component of the model and of every field
is unchanged, and a reference that resolves to no field changes nothing and
raises no error (the pass is total). -/
theorem claim_C7 (m : Model) :
    (post_process_model m).name = m.name ∧
    (post_process_model m).simple_name = m.simple_name ∧
    (post_process_model m).stringify = m.stringify ∧
    (post_process_model m).parse = m.parse ∧
    (post_process_model m).fields.length = m.fields.length ∧
    ∀ j : Nat,
      (post_process_model m).fields.getD j fieldZero =
        if counterRef m.fields j then markIcf (m.fields.getD j fieldZero)
        else m.fields.getD j fieldZero :=
  ⟨rfl, rfl, rfl, rfl, ppFold_length m.fields m.fields,
    fun j => ppFold_getD m.fields m.fields j⟩

/-- C9, witness: the amended claim applied with generation enabled and with
generation disabled. -/
theorem claim_C9_w :
    ({ pstateZero with can_generate := true } : PState).can_generate = true ∧
    runLoop 1 { pstateZero with can_generate := true } [CTok.parseError] =
      ROut.ok (-1) (lexSet { pstateZero with can_generate := true } CTok.parseError) ∧
    runLoop 1 pstateZero [CTok.parseError] =
      runLoop 0 (lexSet pstateZero CTok.parseError) [] :=
  ⟨rfl, (claim_C9 0 { pstateZero with can_generate := true } []).1 rfl,
    (claim_C9 0 pstateZero []).2 rfl⟩

/-- Setting one struct member does not change the others. -/
theorem recGet_recSet_ne (ρ : Rec) (m : String) (v : CVal) (n : String) (h : m ≠ n) :
    recGet (recSet ρ m v) n = recGet ρ n := by
  induction ρ with
  | nil => simp [recSet, recGet, h]
  | cons hd tl ih =>
    obtain ⟨m2, w⟩ := hd
    by_cases hm : m2 = m
    · subst hm
      simp [recSet, recGet, h]
    · by_cases hm2 : m2 = n <;> simp [recSet, recGet, hm, hm2, ih, Ne.symm h]

/-- An early return out of `bodyFinish` carries the record state unchanged. -/
theorem bodyFinish_ret (er : Int × Jsp) (ρ : Rec) (e : Int) (p' : Jsp) (ρ' : Rec)
    (h : bodyFinish er ρ = .ret e p' ρ') : ρ' = ρ := by
  unfold bodyFinish at h
  split at h <;> cases h
  rfl

/-- A fall-through out of `bodyFinish` carries the record state unchanged. -/
theorem bodyFinish_cont (er : Int × Jsp) (ρ : Rec) (p' : Jsp) (ρ' : Rec)
    (h : bodyFinish er ρ = .cont p' ρ') : ρ' = ρ := by
  unfold bodyFinish at h
  split at h <;> cases h
  rfl

/-- The emitted array-field parse body writes only the field's own member and
its counter member: any other member is preserved, on both the early-return
and the fall-through outcome. -/
theorem parse_array_body_preserves (nst : String → Jsp → CVal → Int × Jsp × CVal)
    (f : Field) (p : Jsp) (ρ : Rec) (n : String)
    (hn : f.name ≠ n) (hc : f.has_counter = true → f.counter_field ≠ n) :
    (∀ e p' ρ', parse_array_body nst f p ρ = .ret e p' ρ' → recGet ρ' n = recGet ρ n) ∧
    (∀ p' ρ', parse_array_body nst f p ρ = .cont p' ρ' → recGet ρ' n = recGet ρ n) := by
  constructor
  · intro e p' ρ' h
    unfold parse_array_body at h
    by_cases h1 : (jsp_begin_array p).1 = 0
    · simp only [if_pos h1] at h
      by_cases hcnt : f.has_counter = true
      · simp only [if_pos hcnt] at h
        rw [bodyFinish_ret _ _ _ _ _ h, recGet_recSet_ne _ _ _ _ hn,
          recGet_recSet_ne _ _ _ _ (hc hcnt)]
      · simp only [if_neg hcnt] at h
        rw [bodyFinish_ret _ _ _ _ _ h, recGet_recSet_ne _ _ _ _ hn]
    · simp only [if_neg h1] at h
      cases h
      rfl
  · intro p' ρ' h
    unfold parse_array_body at h
    by_cases h1 : (jsp_begin_array p).1 = 0
    · simp only [if_pos h1] at h
      by_cases hcnt : f.has_counter = true
      · simp only [if_pos hcnt] at h
        rw [bodyFinish_cont _ _ _ _ h, recGet_recSet_ne _ _ _ _ hn,
          recGet_recSet_ne _ _ _ _ (hc hcnt)]
      · simp only [if_neg hcnt] at h
        rw [bodyFinish_cont _ _ _ _ h, recGet_recSet_ne _ _ _ _ hn]
    · simp only [if_neg h1] at h
      cases h

/-- The literal-capture step writes only the field's own member. -/
theorem litStep_preserves (f : Field) (p : Jsp) (ρ : Rec) (n : String)
    (hn : f.name ≠ n) : recGet (litStep f p ρ).2 n = recGet ρ n := by
  unfold litStep
  split
  · exact recGet_recSet_ne _ _ _ _ hn
  · rfl

/-- The string-copy step writes only the field's own member and its counter
member, and never returns early. -/
theorem strCopyStep_preserves (f : Field) (p : Jsp) (ρ : Rec) (n : String)
    (hn : f.name ≠ n) (hc : f.has_counter = true → f.counter_field ≠ n) :
    (∀ e p' ρ', strCopyStep f p ρ ≠ .ret e p' ρ') ∧
    (∀ p' ρ', strCopyStep f p ρ = .cont p' ρ' → recGet ρ' n = recGet ρ n) := by
  constructor
  · intro e p' ρ' h
    unfold strCopyStep at h
    split at h
    · cases h
    · split at h <;> cases h
  · intro p' ρ' h
    unfold strCopyStep at h
    split at h
    · cases h
      split
      all_goals rw [recGet_recSet_ne _ _ _ _ hn]
      all_goals split
      all_goals first
        | exact recGet_recSet_ne _ _ _ _ (hc ‹_›)
        | rfl
    · split at h <;> cases h
      · rw [recGet_recSet_ne _ _ _ _ hn]
      · rfl

/-- The emitted field parse body writes only the field's own member and its
counter member: any other member is preserved. -/
theorem parse_field_body_preserves (nst : String → Jsp → CVal → Int × Jsp × CVal)
    (f : Field) (p : Jsp) (ρ : Rec) (n : String)
    (hn : f.name ≠ n) (hc : f.has_counter = true → f.counter_field ≠ n) :
    (∀ e p' ρ', parse_field_body nst f p ρ = .ret e p' ρ' → recGet ρ' n = recGet ρ n) ∧
    (∀ p' ρ', parse_field_body nst f p ρ = .cont p' ρ' → recGet ρ' n = recGet ρ n) := by
  constructor
  · intro e p' ρ' h
    unfold parse_field_body at h
    cases hty : get_jsp_type f.type with
    | some jt =>
      by_cases hep : (jsp_value p).1 = 0
      · simp only [hty, if_pos hep] at h
        by_cases hjt : jt = "string"
        · simp only [if_pos hjt] at h
          exact absurd h ((strCopyStep_preserves f _ _ n hn hc).1 e p' ρ')
        · simp only [if_neg hjt] at h
          cases h
      · simp only [hty, if_neg hep] at h
        cases h
        rfl
    | none =>
      by_cases harr : f.is_array = true
      · simp only [hty, if_pos harr] at h
        exact (parse_array_body_preserves nst f p ρ n hn hc).1 e p' ρ' h
      · by_cases hptr : f.is_pointer = true
        · simp only [hty, if_neg harr, if_pos hptr] at h
          by_cases hnull : (jsp_value p).1 = 0 ∧ (jsp_value p).2.vtype = JspType.tnull
          · simp only [if_pos hnull] at h
            cases h
          · simp only [if_neg hnull] at h
            rw [bodyFinish_ret _ _ _ _ _ h, recGet_recSet_ne _ _ _ _ hn]
        · simp only [hty, if_neg harr, if_neg hptr] at h
          rw [bodyFinish_ret _ _ _ _ _ h, recGet_recSet_ne _ _ _ _ hn]
  · intro p' ρ' h
    unfold parse_field_body at h
    cases hty : get_jsp_type f.type with
    | some jt =>
      by_cases hep : (jsp_value p).1 = 0
      · simp only [hty, if_pos hep] at h
        by_cases hjt : jt = "string"
        · simp only [if_pos hjt] at h
          have h2 := (strCopyStep_preserves f (litStep f (jsp_value p).2 ρ).1
            (litStep f (jsp_value p).2 ρ).2 n hn hc).2 p' ρ' h
          rw [h2, litStep_preserves f _ ρ n hn]
        · simp only [if_neg hjt] at h
          cases h
          rw [recGet_recSet_ne _ _ _ _ hn]
      · simp only [hty, if_neg hep] at h
        cases h
    | none =>
      by_cases harr : f.is_array = true
      · simp only [hty, if_pos harr] at h
        exact (parse_array_body_preserves nst f p ρ n hn hc).2 p' ρ' h
      · by_cases hptr : f.is_pointer = true
        · simp only [hty, if_neg harr, if_pos hptr] at h
          by_cases hnull : (jsp_value p).1 = 0 ∧ (jsp_value p).2.vtype = JspType.tnull
          · simp only [if_pos hnull] at h
            cases h
            rw [recGet_recSet_ne _ _ _ _ hn]
          · simp only [if_neg hnull] at h
            rw [bodyFinish_cont _ _ _ _ h, recGet_recSet_ne _ _ _ _ hn]
        · simp only [hty, if_neg harr, if_neg hptr] at h
          rw [bodyFinish_cont _ _ _ _ h, recGet_recSet_ne _ _ _ _ hn]

/-- One loop iteration writes only members owned by the field dispatched on
the key it read: every other member is preserved. -/
theorem parse_step_preserves (nst : String → Jsp → CVal → Int × Jsp × CVal)
    (fields : List Field) (p : Jsp) (ρ : Rec) (n : String) :
    (∀ k e p' ρ', parse_step nst fields p ρ = .ret k e p' ρ' →
      (∀ g ∈ fields, g.is_counter_field = false → js_getalias g = k →
        g.name ≠ n ∧ (g.has_counter = true → g.counter_field ≠ n)) →
      recGet ρ' n = recGet ρ n) ∧
    (∀ k p' ρ', parse_step nst fields p ρ = .cont k p' ρ' →
      (∀ k2 ∈ [k], ∀ g ∈ fields, g.is_counter_field = false → js_getalias g = k2 →
        g.name ≠ n ∧ (g.has_counter = true → g.counter_field ≠ n)) →
      recGet ρ' n = recGet ρ n) ∧
    (∀ p' ρ', parse_step nst fields p ρ = .exitLoop p' ρ' → ρ' = ρ) := by
  refine ⟨?_, ?_, ?_⟩
  · intro k e p' ρ' h hk
    unfold parse_step at h
    by_cases hkey : (jsp_key p).1 = 0
    · simp only [if_pos hkey] at h
      cases hff : findField fields ((jsp_key p).2.string.getD "") with
      | some f =>
        simp only [hff] at h
        have hmem := List.mem_of_find?_eq_some hff
        have hpred := List.find?_some hff
        simp only [Bool.and_eq_true, Bool.not_eq_true', beq_iff_eq] at hpred
        cases hbody : parse_field_body nst f (jsp_key p).2 ρ with
        | ret e2 p2 ρ2 =>
          simp only [hbody] at h
          cases h
          exact (parse_field_body_preserves nst f _ ρ n
            (hk f hmem hpred.1 hpred.2).1 (hk f hmem hpred.1 hpred.2).2).1 _ _ _ hbody
        | cont p2 ρ2 =>
          simp only [hbody] at h
          cases h
      | none =>
        simp only [hff] at h
        by_cases hskip : (jsp_skip (jsp_key p).2).1 = 0
        · simp only [if_pos hskip] at h
          cases h
        · simp only [if_neg hskip] at h
          cases h
          rfl
    · simp only [if_neg hkey] at h
      cases h
  · intro k p' ρ' h hk
    unfold parse_step at h
    by_cases hkey : (jsp_key p).1 = 0
    · simp only [if_pos hkey] at h
      cases hff : findField fields ((jsp_key p).2.string.getD "") with
      | some f =>
        simp only [hff] at h
        have hmem := List.mem_of_find?_eq_some hff
        have hpred := List.find?_some hff
        simp only [Bool.and_eq_true, Bool.not_eq_true', beq_iff_eq] at hpred
        cases hbody : parse_field_body nst f (jsp_key p).2 ρ with
        | ret e2 p2 ρ2 =>
          simp only [hbody] at h
          cases h
        | cont p2 ρ2 =>
          simp only [hbody] at h
          cases h
          exact (parse_field_body_preserves nst f _ ρ n
            (hk _ (List.mem_singleton.mpr rfl) f hmem hpred.1 hpred.2).1
            (hk _ (List.mem_singleton.mpr rfl) f hmem hpred.1 hpred.2).2).2 _ _ hbody
      | none =>
        simp only [hff] at h
        by_cases hskip : (jsp_skip (jsp_key p).2).1 = 0
        · simp only [if_pos hskip] at h
          cases h
          rfl
        · simp only [if_neg hskip] at h
          cases h
    · simp only [if_neg hkey] at h
      cases h
  · intro p' ρ' h
    unfold parse_step at h
    by_cases hkey : (jsp_key p).1 = 0
    · simp only [if_pos hkey] at h
      cases hff : findField fields ((jsp_key p).2.string.getD "") with
      | some f =>
        simp only [hff] at h
        cases hbody : parse_field_body nst f (jsp_key p).2 ρ with
        | ret e2 p2 ρ2 => simp only [hbody] at h; cases h
        | cont p2 ρ2 => simp only [hbody] at h; cases h
      | none =>
        simp only [hff] at h
        by_cases hskip : (jsp_skip (jsp_key p).2).1 = 0
        · simp only [if_pos hskip] at h; cases h
        · simp only [if_neg hskip] at h; cases h
    · simp only [if_neg hkey] at h
      cases h
      rfl

/-- The parse loop preserves every member that is not owned (as member or
counter target) by any field dispatched on one of the keys the run reads. -/
theorem parse_loop_preserves (nst : String → Jsp → CVal → Int × Jsp × CVal)
    (fields : List Field) (n : String) :
    ∀ (fuel : Nat) (p : Jsp) (ρ : Rec),
    (∀ k ∈ parse_keys nst fields fuel p ρ, ∀ g ∈ fields,
      g.is_counter_field = false → js_getalias g = k →
      g.name ≠ n ∧ (g.has_counter = true → g.counter_field ≠ n)) →
    ∀ e p' ρ', parse_loop nst fields fuel p ρ = some (e, p', ρ') →
    recGet ρ' n = recGet ρ n := by
  intro fuel
  induction fuel with
  | zero =>
    intro p ρ hkeys e p' ρ' h
    simp [parse_loop] at h
  | succ fuel ih =>
    intro p ρ hkeys e p' ρ' h
    rw [parse_loop] at h
    cases hstep : parse_step nst fields p ρ with
    | ret k e1 p1 ρ1 =>
      rw [hstep] at h
      cases h
      refine (parse_step_preserves nst fields p ρ n).1 k e p' ρ' hstep ?_
      intro g hg hgc hga
      refine hkeys k ?_ g hg hgc hga
      rw [parse_keys, hstep]
      exact List.mem_singleton.mpr rfl
    | exitLoop p1 ρ1 =>
      rw [hstep] at h
      cases h
      rw [(parse_step_preserves nst fields p ρ n).2.2 p1 ρ' hstep]
    | cont k p1 ρ1 =>
      rw [hstep] at h
      have hstepk : ∀ k2 ∈ [k], ∀ g ∈ fields,
          g.is_counter_field = false → js_getalias g = k2 →
          g.name ≠ n ∧ (g.has_counter = true → g.counter_field ≠ n) := by
        intro k2 hk2 g hg hgc hga
        rw [List.mem_singleton] at hk2
        subst hk2
        refine hkeys k2 ?_ g hg hgc hga
        rw [parse_keys, hstep]
        exact List.mem_cons_self _ _
      have h1 := (parse_step_preserves nst fields p ρ n).2.1 k p1 ρ1 hstep hstepk
      have h2 := ih p1 ρ1 ?_ e p' ρ' h
      · rw [h2, h1]
      · intro k2 hk2 g hg hgc hga
        refine hkeys k2 ?_ g hg hgc hga
        rw [parse_keys, hstep]
        exact List.mem_cons_of_mem _ hk2

/-- C2, counterexample: the input object `{"s": "ab"}` contains no key
matching the alias of field `n`, whose prior (zero-initialized) value is 0;
yet the generated parse sets `n` to 2 — the string length written through the
`sized_by` counter reference of field `s` — so not every field without a
matching key keeps its prior value. -/
theorem claim_C2_cex :
    parse_keys nstFail c2Fields 10
        ((jsp_begin_object (jsp_init "\x7b\"s\": \"ab\"\x7d".toList)).2) c2Zero = ["s"] ∧
    parse_model_top nstFail c2Fields 10 ("\x7b\"s\": \"ab\"\x7d".toList) c2Zero =
      some (0,
        { rest := [], string := some "ab", number := 0, boolean := false,
          vtype := JspType.tstring },
        [("s", CVal.vstr (some "ab")), ("n", CVal.vint 2)]) :=
  ⟨rfl, rfl⟩

/-- C2 (part two amended): (1) for every pointer field whose value is the
null pointer, the generated stringify emits nothing at all for that field —
key and value are omitted and the builder state is returned unchanged;
(2) the generated parse leaves a member at its prior value provided no key
dispatched by the run matches the alias of a field owning that member — as
its own name, or as its `sized_by` counter target (counter targets may be
written when their owning field's key is parsed, even though the counter's
own alias is absent). -/
theorem claim_C2 :
    (∀ (nst : String → CVal → Jsb → Option Jsb) (ρ : Rec) (f : Field) (j : Jsb),
      f.is_pointer = true → cIsNull (recGet ρ f.name) = true →
      stringify_field nst ρ f j = some j) ∧
    (∀ (nstp : String → Jsp → CVal → Int × Jsp × CVal) (fields : List Field)
      (fuel : Nat) (p : Jsp) (ρ : Rec) (n : String),
      (∀ k ∈ parse_keys nstp fields fuel (jsp_begin_object p).2 ρ, ∀ g ∈ fields,
        g.is_counter_field = false → js_getalias g = k →
        g.name ≠ n ∧ (g.has_counter = true → g.counter_field ≠ n)) →
      ∀ e p' ρ', parse_model_fn nstp fields fuel p ρ = some (e, p', ρ') →
      recGet ρ' n = recGet ρ n) := by
  constructor
  · intro nst ρ f j hp hnull
    unfold stringify_field
    by_cases hcf : f.is_counter_field = true
    · simp [hcf]
    · simp [hcf, hp, hnull]
  · intro nstp fields fuel p ρ n hkeys e p' ρ' h
    unfold parse_model_fn at h
    by_cases hb : (jsp_begin_object p).1 = 0
    · simp only [if_pos hb] at h
      exact parse_loop_preserves nstp fields n fuel _ ρ hkeys e p' ρ' h
    · simp only [if_neg hb] at h
      cases h
      rfl

/-- C2, witness: the null char-pointer field emits nothing, and parsing
`{"x": 1}` over the one-field model leaves the unmatched member `a` at its
prior value. -/
theorem claim_C2_w :
    stringify_field nstNone [("q", CVal.vstr none)]
      { fieldZero with name := "q", type := "char*", simple_type := "char",
                       is_pointer := true } c5Jsb = some c5Jsb ∧
    recGet
      (parse_model_fn nstFail c4Fields 5 (jsp_init "\x7b\"x\": 1\x7d".toList) c4Zero
        |>.map (fun r => r.2.2) |>.getD []) "a" = recGet c4Zero "a" := by
  constructor
  · exact claim_C2.1 nstNone _ _ c5Jsb rfl rfl
  · have h := claim_C2.2 nstFail c4Fields 5 (jsp_init "\x7b\"x\": 1\x7d".toList) c4Zero "a"
      (by decide) 0
      { rest := [], string := some "x", number := 0, boolean := false,
        vtype := JspType.tnone }
      [("a", CVal.vint 0)] rfl
    exact h

/-- C5, counterexample: for a bare-bracket array field of scalar element type
(`int xs[...]`), the emitted stringify code is the typed scalar writer applied
to the array (type-invalid generated code, `none` in the model), not an array
open/close — the field does not produce an empty JSON array. -/
theorem claim_C5_cex :
    stringify_field nstNone c5Rec c5FieldInt c5Jsb = none ∧
    ((jsb_key c5Jsb "xs").bind jsb_begin_array).bind jsb_end_array =
      some { buffer := "\x7b\"xs\": []".toList, stack := [.object, .start],
             is_first := false, is_key := false, pp := 0 } :=
  ⟨rfl, rfl⟩

/-- C5 (amended): for an array field without a counter whose declared type
does not resolve to a scalar kind (`get_jsb_type` is `none`), the generated
stringify emits the key, an array open and immediately an array close — an
empty JSON array regardless of the stored contents `es`. -/
theorem claim_C5 (nst : String → CVal → Jsb → Option Jsb) (ρ : Rec) (f : Field)
    (j : Jsb) (es : List CVal)
    (harr : f.is_array = true) (hnc : f.has_counter = false)
    (hncf : f.is_counter_field = false) (hty : get_jsb_type f.type = none)
    (hv : recGet ρ f.name = CVal.varr es) :
    stringify_field nst ρ f j =
      ((jsb_key j (js_getalias f)).bind jsb_begin_array).bind jsb_end_array := by
  simp only [stringify_field, hncf, hv, hty, harr, hnc, cIsNull, Bool.false_eq_true,
    and_false, if_false, ite_false]
  cases hk : jsb_key j (js_getalias f) with
  | none => simp
  | some j1 =>
    cases hb : jsb_begin_array j1 with
    | none => simp [hb]
    | some j2 => simp [hb]

/-- C5, witness: the amended claim at a record-element bare array field,
producing exactly the empty-array emission. -/
theorem claim_C5_w :
    c5FieldNested.is_array = true ∧ c5FieldNested.has_counter = false ∧
    get_jsb_type c5FieldNested.type = none ∧
    recGet c5Rec c5FieldNested.name = CVal.varr [CVal.vint 7] ∧
    stringify_field nstNone c5Rec c5FieldNested c5Jsb =
      ((jsb_key c5Jsb (js_getalias c5FieldNested)).bind jsb_begin_array).bind jsb_end_array :=
  ⟨rfl, rfl, rfl, rfl,
    claim_C5 nstNone c5Rec c5FieldNested c5Jsb [CVal.vint 7] rfl rfl rfl rfl rfl⟩

/-- C4, counterexample: parsing the batch input `[5]` with the generated
one-field-model element parser fails on the element (the element is not an
object), and the error is returned with the output array still allocated
(one garbage-initialized element) and the output count still 1 — neither is
reset to null/zero. -/
theorem claim_C4_cex :
    parse_model_list c4Elem c4Zero (jsp_init "[5]".toList) none 0 =
      some (1,
        { rest := ['5', ']'], string := none, number := 0, boolean := false,
          vtype := JspType.tnone },
        some [[("a", CVal.vint 0)]], 1) :=
  rfl

/-- C4 (amended): in the generated batch parser, the output array and count
are reset to null/zero exactly when the final `jsp_end_array` fails after the
element loop completed; an element failure returns its error with the output
array and count left at their allocated values (no reset). -/
theorem claim_C4 (elem : Jsp → Rec → Option (Int × Jsp × Rec)) (garbage : Rec)
    (p p1 : Jsp) (out0 : Option (List Rec)) (cnt0 : Nat)
    (hb : jsp_begin_array p = (0, p1)) :
    (∀ p2 out2 e3 p3,
      listElemLoop elem p1 (List.replicate (jsp_array_length p1) garbage) 0
          (jsp_array_length p1) = some (.inr (p2, out2)) →
      jsp_end_array p2 = (e3, p3) → e3 ≠ 0 →
      parse_model_list elem garbage p out0 cnt0 = some (e3, p3, none, 0)) ∧
    (∀ e2 p2 out2,
      listElemLoop elem p1 (List.replicate (jsp_array_length p1) garbage) 0
          (jsp_array_length p1) = some (.inl (e2, p2, out2)) →
      parse_model_list elem garbage p out0 cnt0 =
        some (e2, p2, some out2, jsp_array_length p1)) := by
  constructor
  · intro p2 out2 e3 p3 hloop hend he3
    simp only [parse_model_list, hb, hloop, hend]
    simp [he3]
  · intro e2 p2 out2 hloop
    by_cases he2 : e2 = 0
    · simp only [parse_model_list, hb, hloop]
      simp [he2]
    · simp only [parse_model_list, hb, hloop]
      simp [he2]

/-- C4, witness: the amended claim applied to the unterminated input `[`
(empty element loop, failing close — outputs reset) and to `[5]` (element
failure — outputs kept). -/
theorem claim_C4_w :
    jsp_begin_array (jsp_init "[".toList) =
      (0, { rest := [], string := none, number := 0, boolean := false,
            vtype := JspType.tnone }) ∧
    parse_model_list c4Elem c4Zero (jsp_init "[".toList) none 0 =
      some (1,
        { rest := [], string := none, number := 0, boolean := false,
          vtype := JspType.tnone }, none, 0) ∧
    parse_model_list c4Elem c4Zero (jsp_init "[5]".toList) none 0 =
      some (1,
        { rest := ['5', ']'], string := none, number := 0, boolean := false,
          vtype := JspType.tnone },
        some [[("a", CVal.vint 0)]], 1) :=
  ⟨rfl,
    (claim_C4 c4Elem c4Zero (jsp_init "[".toList)
        { rest := [], string := none, number := 0, boolean := false, vtype := JspType.tnone }
        none 0 rfl).1
      _ [] 1 _ rfl rfl (by decide),
    (claim_C4 c4Elem c4Zero (jsp_init "[5]".toList)
        { rest := ['5', ']'], string := none, number := 0, boolean := false,
          vtype := JspType.tnone }
        none 0 rfl).2
      1 _ [[("a", CVal.vint 0)]] rfl⟩


/-- `String.mk` of `toList` is the identity. -/
theorem mk_toList (s : String) : (⟨s.toList⟩ : String) = s := by
  cases s; rfl

/-- A digit character differs from any non-digit character. -/
theorem isDig_ne (c d : Char) (h : isDig c = true) (h2 : isDig d = false) : c ≠ d := by
  intro he; subst he; rw [h] at h2; cases h2

/-- Digit characters are not JSON whitespace. -/
theorem isDig_not_ws (c : Char) (h : isDig c = true) : isWs c = false := by
  simp only [isWs, decide_eq_false_iff_not]
  push_neg
  exact ⟨isDig_ne c ' ' h (by decide), isDig_ne c '\n' h (by decide),
    isDig_ne c '\t' h (by decide), isDig_ne c '\x0d' h (by decide)⟩

/-- Escaped text of a string free of the dropped characters reads back
identically. -/
theorem strRead_escList : ∀ (s : List Char), (∀ c ∈ s, okChar c = true) →
    ∀ (acc rest : List Char),
    strRead acc (escList s ++ '"' :: rest) = some (⟨acc.reverse ++ s⟩, rest) := by
  intro s
  induction s with
  | nil =>
    intro _ acc rest
    simp only [escList, List.nil_append, List.append_nil]
    rw [strRead.eq_def]
    simp
  | cons c cs ih =>
    intro hs acc rest
    have hok : okChar c = true := hs c (by simp)
    have hcs : ∀ d ∈ cs, okChar d = true := fun d hd => hs d (by simp [hd])
    have h8 : ¬(c = '\x08' ∨ c = '\x0d') := by
      simpa [okChar, not_or] using hok
    by_cases h1 : c = '\n'
    · subst h1
      have hstep : strRead acc (escList ('\n' :: cs) ++ '"' :: rest)
          = strRead ('\n' :: acc) (escList cs ++ '"' :: rest) := by
        have hl : escList ('\n' :: cs) ++ '"' :: rest
            = '\\' :: 'n' :: (escList cs ++ '"' :: rest) := by
          simp [escList, jsb_escape_char]
        rw [hl, strRead.eq_def]
        simp [unescChar]
      rw [hstep, ih hcs _ rest]
      simp
    · by_cases h2 : c = '\t'
      · subst h2
        have hstep : strRead acc (escList ('\t' :: cs) ++ '"' :: rest)
            = strRead ('\t' :: acc) (escList cs ++ '"' :: rest) := by
          have hl : escList ('\t' :: cs) ++ '"' :: rest
              = '\\' :: 't' :: (escList cs ++ '"' :: rest) := by
            simp [escList, jsb_escape_char]
          rw [hl, strRead.eq_def]
          simp [unescChar]
        rw [hstep, ih hcs _ rest]
        simp
      · by_cases h3 : c = '"'
        · subst h3
          have hstep : strRead acc (escList ('"' :: cs) ++ '"' :: rest)
              = strRead ('"' :: acc) (escList cs ++ '"' :: rest) := by
            have hl : escList ('"' :: cs) ++ '"' :: rest
                = '\\' :: '"' :: (escList cs ++ '"' :: rest) := by
              simp [escList, jsb_escape_char]
            rw [hl, strRead.eq_def]
            simp [unescChar]
          rw [hstep, ih hcs _ rest]
          simp
        · by_cases h4 : c = '\\'
          · subst h4
            have hstep : strRead acc (escList ('\\' :: cs) ++ '"' :: rest)
                = strRead ('\\' :: acc) (escList cs ++ '"' :: rest) := by
              have hl : escList ('\\' :: cs) ++ '"' :: rest
                  = '\\' :: '\\' :: (escList cs ++ '"' :: rest) := by
                simp [escList, jsb_escape_char]
              rw [hl, strRead.eq_def]
              simp [unescChar]
            rw [hstep, ih hcs _ rest]
            simp
          · have he : jsb_escape_char c = [c] := by
              rw [jsb_escape_char, if_neg h1, if_neg h2, if_neg (by tauto), if_neg h8]
            have hl : escList (c :: cs) ++ '"' :: rest
                = c :: (escList cs ++ '"' :: rest) := by
              simp [escList, he]
            rw [hl, strRead.eq_def]
            simp only []
            rw [if_neg h3, if_neg h4, ih hcs _ rest]
            simp

/-- The digit characters are digits with their face value. -/
theorem digitChar_spec (d : Nat) (h : d < 10) :
    isDig (digitChar d) = true ∧ dval (digitChar d) = d := by
  interval_cases d <;> exact ⟨by decide, by decide⟩

/-- A decimal rendering is nonempty and starts with a digit. -/
theorem natDecAux_cons (fuel : Nat) : ∀ n, n < fuel →
    ∃ c cs, natDecAux fuel n = c :: cs ∧ isDig c = true := by
  induction fuel with
  | zero => exact fun n h => absurd h (Nat.not_lt_zero n)
  | succ fuel ih =>
    intro n h
    by_cases h10 : n < 10
    · exact ⟨digitChar n, [], by rw [natDecAux, if_pos h10], (digitChar_spec n h10).1⟩
    · have hdiv : n / 10 < fuel := by
        have := Nat.div_lt_self (show 0 < n by omega) (show 1 < 10 by omega)
        omega
      obtain ⟨c, cs, hc, hd⟩ := ih (n / 10) hdiv
      refine ⟨c, cs ++ [digitChar (n % 10)], ?_, hd⟩
      rw [natDecAux, if_neg h10, hc]
      rfl

/-- Reading the digits of a decimal rendering accumulates exactly its value
and length. -/
theorem readDigits_app (fuel : Nat) : ∀ n acc cnt rest, n < fuel →
    readDigitsCnt acc cnt (natDecAux fuel n ++ rest)
      = readDigitsCnt (acc * 10 ^ (natDecAux fuel n).length + n)
          (cnt + (natDecAux fuel n).length) rest := by
  induction fuel with
  | zero => exact fun n _ _ _ h => absurd h (Nat.not_lt_zero n)
  | succ fuel ih =>
    intro n acc cnt rest h
    by_cases h10 : n < 10
    · rw [natDecAux, if_pos h10]
      obtain ⟨hd, hv⟩ := digitChar_spec n h10
      rw [List.singleton_append, readDigitsCnt, if_pos hd, hv]
      have h1 : 10 * acc + n = acc * 10 ^ ([digitChar n] : List Char).length + n := by
        simp; ring
      have h2 : cnt + 1 = cnt + ([digitChar n] : List Char).length := by simp
      rw [h1, h2]
    · rw [natDecAux, if_neg h10]
      have hdiv : n / 10 < fuel := by
        have := Nat.div_lt_self (show 0 < n by omega) (show 1 < 10 by omega)
        omega
      rw [List.append_assoc, ih (n / 10) acc cnt _ hdiv]
      obtain ⟨hd, hv⟩ := digitChar_spec (n % 10) (Nat.mod_lt _ (by omega))
      rw [List.singleton_append, readDigitsCnt, if_pos hd, hv]
      have hval : 10 * (acc * 10 ^ (natDecAux fuel (n / 10)).length + n / 10) + n % 10
          = acc * 10 ^ ((natDecAux fuel (n / 10)).length + 1) + n := by
        calc 10 * (acc * 10 ^ (natDecAux fuel (n / 10)).length + n / 10) + n % 10
            = acc * (10 ^ (natDecAux fuel (n / 10)).length * 10)
              + (10 * (n / 10) + n % 10) := by ring
          _ = acc * 10 ^ ((natDecAux fuel (n / 10)).length + 1) + n := by
              rw [← pow_succ, Nat.div_add_mod]
      rw [hval]
      have hlen : (natDecAux fuel (n / 10) ++ [digitChar (n % 10)]).length
          = (natDecAux fuel (n / 10)).length + 1 := by simp
      rw [hlen]
      have hcnt : cnt + (natDecAux fuel (n / 10)).length + 1
          = cnt + ((natDecAux fuel (n / 10)).length + 1) := by omega
      rw [hcnt]

/-- Digit reading stops at a non-digit. -/
theorem readDigits_stop (acc cnt : Nat) (rest : List Char)
    (h : noDigStart rest = true) :
    readDigitsCnt acc cnt rest = (acc, cnt, rest) := by
  cases rest with
  | nil => rfl
  | cons c cs =>
    have : isDig c = false := by simpa [noDigStart] using h
    rw [readDigitsCnt, if_neg (by simp [this])]

/-- Reading the digits of `natDec n` followed by a non-digit yields `n`, its
digit count, and the rest. -/
theorem readDigits_natDec (n acc cnt : Nat) (rest : List Char)
    (h : noDigStart rest = true) :
    readDigitsCnt acc cnt (natDec n ++ rest)
      = (acc * 10 ^ (natDec n).length + n, cnt + (natDec n).length, rest) := by
  rw [natDec, readDigits_app (n + 1) n acc cnt rest (Nat.lt_succ_self n),
    readDigits_stop _ _ _ h]

/-- Reading a run of leading zeros multiplies the accumulator by the
corresponding power of ten. -/
theorem readDigits_zeros (z : Nat) : ∀ acc cnt (l : List Char),
    readDigitsCnt acc cnt (List.replicate z '0' ++ l)
      = readDigitsCnt (acc * 10 ^ z) (cnt + z) l := by
  induction z with
  | zero => intro acc cnt l; simp
  | succ z ih =>
    intro acc cnt l
    rw [List.replicate_succ, List.cons_append, readDigitsCnt,
      if_pos (by decide : isDig '0' = true)]
    have hd : dval '0' = 0 := by decide
    rw [hd, ih]
    have h1 : (10 * acc + 0) * 10 ^ z = acc * 10 ^ (z + 1) := by ring
    have h2 : cnt + 1 + z = cnt + (z + 1) := by omega
    rw [h1, h2]

/-- Length bound of a decimal rendering: a number below `10 ^ k` has at most
`k` digits. -/
theorem natDecAux_length_le (fuel : Nat) : ∀ n k, n < fuel → n < 10 ^ k → 1 ≤ k →
    (natDecAux fuel n).length ≤ k := by
  induction fuel with
  | zero => exact fun n k h _ _ => absurd h (Nat.not_lt_zero n)
  | succ fuel ih =>
    intro n k h hk h1
    by_cases h10 : n < 10
    · rw [natDecAux, if_pos h10]
      simpa using h1
    · rw [natDecAux, if_neg h10]
      have hdiv : n / 10 < fuel := by
        have := Nat.div_lt_self (show 0 < n by omega) (show 1 < 10 by omega)
        omega
      have hk2 : 2 ≤ k := by
        by_contra hlt
        have : k = 1 := by omega
        subst this
        simp at hk
        omega
      have hdivk : n / 10 < 10 ^ (k - 1) := by
        rw [Nat.div_lt_iff_lt_mul (by omega : 0 < 10)]
        calc n < 10 ^ k := hk
          _ = 10 ^ (k - 1) * 10 := by
              rw [← pow_succ]
              congr 1
              omega
      have := ih (n / 10) (k - 1) hdiv hdivk (by omega)
      simp only [List.length_append, List.length_singleton]
      omega


/-- A number terminator does not start with a digit. -/
theorem numStop_noDig (l : List Char) (h : numStop l = true) : noDigStart l = true := by
  cases l with
  | nil => rfl
  | cons c cs =>
    simp only [numStop, Bool.and_eq_true] at h
    simpa [noDigStart] using h.1

/-- After the integer digits, a number terminator ends the number. -/
theorem numReadAfter_stop (neg : Bool) (v cnt : Nat) (rest : List Char)
    (h : numStop rest = true) :
    numReadAfter neg (v, cnt, rest)
      = some ((if neg then -1 else (1 : ℚ)) * (v : ℚ), rest) := by
  match rest with
  | [] => rfl
  | [c] => rfl
  | c2 :: c3 :: r2 =>
    have hc2 : ¬(c2 = '.') := by
      simp only [numStop, Bool.and_eq_true, Bool.not_eq_true'] at h
      simpa using h.2
    rw [numReadAfter.eq_def]
    simp only []
    rw [if_neg (fun hh => hc2 hh.1)]

/-- `numReadCore` on a decimal rendering followed by a terminator. -/
theorem numReadCore_natDec (neg : Bool) (a : Nat) (rest : List Char)
    (h : numStop rest = true) :
    numReadCore neg (natDec a ++ rest)
      = some ((if neg then -1 else (1 : ℚ)) * (a : ℚ), rest) := by
  obtain ⟨c, cs, hc, hd⟩ := natDecAux_cons (a + 1) a (Nat.lt_succ_self a)
  have hc' : natDec a = c :: cs := hc
  rw [hc', List.cons_append, numReadCore.eq_def]
  simp only []
  rw [if_neg (by simp [hd]), ← List.cons_append, ← hc',
    readDigits_natDec a 0 0 rest (numStop_noDig rest h)]
  simp only [Nat.zero_mul, Nat.zero_add]
  exact numReadAfter_stop neg a _ rest h

/-- A zero-padded decimal rendering is nonempty and starts with a digit. -/
theorem padZeros_cons (k m : Nat) :
    ∃ e es, padZeros k (natDec m) = e :: es ∧ isDig e = true := by
  obtain ⟨c, cs, hc, hd⟩ := natDecAux_cons (m + 1) m (Nat.lt_succ_self m)
  have hc' : natDec m = c :: cs := hc
  rw [padZeros]
  cases hz : k - (natDec m).length with
  | zero =>
    rw [List.replicate, List.nil_append, hc']
    exact ⟨c, cs, rfl, hd⟩
  | succ z =>
    rw [List.replicate_succ, List.cons_append]
    exact ⟨'0', _, rfl, by decide⟩

/-- `numReadCore` on a decimal rendering with a five-digit zero-padded
fraction followed by a terminator. -/
theorem numReadCore_frac (neg : Bool) (ip m : Nat) (hm : m < 10 ^ 5)
    (rest : List Char) (h : numStop rest = true) :
    numReadCore neg (natDec ip ++ '.' :: (padZeros 5 (natDec m) ++ rest))
      = some ((if neg then -1 else (1 : ℚ)) * ((ip : ℚ) + (m : ℚ) / (10 : ℚ) ^ 5),
          rest) := by
  obtain ⟨c, cs, hc, hd⟩ := natDecAux_cons (ip + 1) ip (Nat.lt_succ_self ip)
  have hc' : natDec ip = c :: cs := hc
  have hnds : noDigStart ('.' :: (padZeros 5 (natDec m) ++ rest)) = true := by
    simp only [noDigStart]
    decide
  rw [hc', List.cons_append, numReadCore.eq_def]
  simp only []
  rw [if_neg (by simp [hd]), ← List.cons_append, ← hc',
    readDigits_natDec ip 0 0 _ hnds]
  simp only [Nat.zero_mul, Nat.zero_add]
  obtain ⟨e, es, hes, hde⟩ := padZeros_cons 5 m
  have hsplit : padZeros 5 (natDec m) ++ rest = e :: (es ++ rest) := by
    rw [hes]; rfl
  rw [hsplit, numReadAfter.eq_def]
  simp only []
  rw [if_pos (by exact ⟨by trivial, hde⟩), ← List.cons_append, ← hes]
  have hlm : (natDec m).length ≤ 5 := by
    rw [natDec]
    exact natDecAux_length_le (m + 1) m 5 (Nat.lt_succ_self m) hm (by omega)
  rw [padZeros, List.append_assoc,
    readDigits_zeros (5 - (natDec m).length) 0 0 _,
    readDigits_natDec m _ _ rest (numStop_noDig rest h)]
  simp only [Nat.zero_mul, Nat.zero_add]
  have hcnt : 5 - (natDec m).length + (natDec m).length = 5 :=
    Nat.sub_add_cancel hlm
  rw [hcnt]
  rfl

/-- `numRead` of the `%d` rendering of an integer, followed by a number
terminator, recovers the integer exactly. -/
theorem numRead_intDec (i : Int) (rest : List Char) (h : numStop rest = true) :
    numRead (intDec i ++ rest) = some ((i : ℚ), rest) := by
  by_cases hneg : i < 0
  · have hi : intDec i = '-' :: natDec i.natAbs := by
      rw [intDec, if_pos hneg]; rfl
    rw [hi, List.cons_append, numRead.eq_def]
    simp only []
    rw [if_pos (by trivial), numReadCore_natDec true i.natAbs rest h]
    have hcast : ((i.natAbs : Nat) : ℚ) = -(i : ℚ) := by
      rw [Int.cast_natAbs]
      exact_mod_cast abs_of_neg hneg
    rw [hcast, show (if true then -1 else (1 : ℚ)) = -1 from rfl]
    norm_num
  · have hi : intDec i = natDec i.natAbs := by
      rw [intDec, if_neg hneg]; rfl
    obtain ⟨c, cs, hc, hd⟩ := natDecAux_cons (i.natAbs + 1) i.natAbs (Nat.lt_succ_self _)
    have hc' : natDec i.natAbs = c :: cs := hc
    rw [hi, hc', List.cons_append, numRead.eq_def]
    simp only []
    rw [if_neg (isDig_ne c '-' hd (by decide)), ← List.cons_append, ← hc',
      numReadCore_natDec false i.natAbs rest h]
    have hcast : ((i.natAbs : Nat) : ℚ) = (i : ℚ) := by
      rw [Int.cast_natAbs]
      exact_mod_cast abs_of_nonneg (not_lt.mp hneg)
    rw [hcast, show (if false then -1 else (1 : ℚ)) = 1 from rfl]
    norm_num

/-- `numRead` of the `%.*f` rendering at precision 5, for a value exact at
five fractional digits, followed by a terminator, recovers the value. -/
theorem numRead_numFmt (q : ℚ) (hden : (q * (10 : ℚ) ^ 5).den = 1)
    (rest : List Char) (h : numStop rest = true) :
    numRead (numFmt q 5 ++ rest) = some (q, rest) := by
  have hkq : (((q * (10 : ℚ) ^ 5).num : ℤ) : ℚ) = q * (10 : ℚ) ^ 5 := by
    have h0 := Rat.num_div_den (q * (10 : ℚ) ^ 5)
    rw [hden, Nat.cast_one, div_one] at h0
    exact h0
  have hround : round (q * (10 : ℚ) ^ 5) = (q * (10 : ℚ) ^ 5).num := by
    conv_lhs => rw [← hkq]
    rw [round_intCast]
  have hfmt : numFmt q 5
      = (if q < 0 then ['-'] else [])
        ++ natDec ((q * (10 : ℚ) ^ 5).num.natAbs / 10 ^ 5)
        ++ '.' :: padZeros 5 (natDec ((q * (10 : ℚ) ^ 5).num.natAbs % 10 ^ 5)) := by
    simp only [numFmt]
    rw [hround]
  have hm : (q * (10 : ℚ) ^ 5).num.natAbs % 10 ^ 5 < 10 ^ 5 :=
    Nat.mod_lt _ (by norm_num)
  have hdm : (q * (10 : ℚ) ^ 5).num.natAbs / 10 ^ 5 * 10 ^ 5
      + (q * (10 : ℚ) ^ 5).num.natAbs % 10 ^ 5 = (q * (10 : ℚ) ^ 5).num.natAbs := by
    rw [mul_comm]
    exact Nat.div_add_mod _ _
  have h10 : ((10 : ℚ) ^ 5) ≠ 0 := by norm_num
  have hipm : ((((q * (10 : ℚ) ^ 5).num.natAbs / 10 ^ 5 : Nat)) : ℚ)
      + (((q * (10 : ℚ) ^ 5).num.natAbs % 10 ^ 5 : Nat) : ℚ) / (10 : ℚ) ^ 5
      = (((q * (10 : ℚ) ^ 5).num.natAbs : Nat) : ℚ) / (10 : ℚ) ^ 5 := by
    rw [eq_div_iff h10, add_mul, div_mul_cancel₀ _ h10]
    exact_mod_cast hdm
  by_cases hqneg : q < 0
  · have htext : numFmt q 5 ++ rest
        = '-' :: (natDec ((q * (10 : ℚ) ^ 5).num.natAbs / 10 ^ 5)
          ++ '.' :: (padZeros 5 (natDec ((q * (10 : ℚ) ^ 5).num.natAbs % 10 ^ 5))
            ++ rest)) := by
      rw [hfmt, if_pos hqneg]
      simp [List.append_assoc]
    rw [htext, numRead.eq_def]
    simp only []
    rw [if_pos (by trivial), numReadCore_frac true _ _ hm rest h]
    have hknum : (q * (10 : ℚ) ^ 5).num < 0 := by
      have hlt : (((q * (10 : ℚ) ^ 5).num : ℤ) : ℚ) < 0 := by
        rw [hkq]
        exact mul_neg_of_neg_of_pos hqneg (by norm_num)
      exact_mod_cast hlt
    have hcast : (((q * (10 : ℚ) ^ 5).num.natAbs : Nat) : ℚ)
        = -(q * (10 : ℚ) ^ 5) := by
      rw [Int.cast_natAbs, abs_of_neg hknum]
      push_cast
      rw [hkq]
    rw [hipm, hcast, show (if true then -1 else (1 : ℚ)) = -1 from rfl]
    rw [neg_div, mul_div_assoc]
    norm_num
  · have htext : numFmt q 5 ++ rest
        = natDec ((q * (10 : ℚ) ^ 5).num.natAbs / 10 ^ 5)
          ++ '.' :: (padZeros 5 (natDec ((q * (10 : ℚ) ^ 5).num.natAbs % 10 ^ 5))
            ++ rest) := by
      rw [hfmt, if_neg hqneg]
      simp [List.append_assoc]
    obtain ⟨c, cs, hc, hd⟩ := natDecAux_cons
      ((q * (10 : ℚ) ^ 5).num.natAbs / 10 ^ 5 + 1)
      ((q * (10 : ℚ) ^ 5).num.natAbs / 10 ^ 5) (Nat.lt_succ_self _)
    have hc' : natDec ((q * (10 : ℚ) ^ 5).num.natAbs / 10 ^ 5) = c :: cs := hc
    rw [htext, hc', List.cons_append, numRead.eq_def]
    simp only []
    rw [if_neg (isDig_ne c '-' hd (by decide)), ← List.cons_append, ← hc',
      numReadCore_frac false _ _ hm rest h]
    have hknum : 0 ≤ (q * (10 : ℚ) ^ 5).num := by
      have hle : (0 : ℚ) ≤ (((q * (10 : ℚ) ^ 5).num : ℤ) : ℚ) := by
        rw [hkq]
        exact mul_nonneg (not_lt.mp hqneg) (by norm_num)
      exact_mod_cast hle
    have hcast : (((q * (10 : ℚ) ^ 5).num.natAbs : Nat) : ℚ) = q * (10 : ℚ) ^ 5 := by
      rw [Int.cast_natAbs, abs_of_nonneg hknum]
      exact hkq
    rw [hipm, hcast, show (if false then -1 else (1 : ℚ)) = 1 from rfl]
    rw [mul_div_assoc]
    norm_num

/-- The C double-to-int conversion is the identity on integral values. -/
theorem cDoubleToInt_intCast (i : Int) : cDoubleToInt ((i : ℚ)) = i := by
  rw [cDoubleToInt]
  simp [Rat.num_intCast, Rat.den_intCast, Int.tdiv_one]


/-- `jsb_key` inside the top-level object: comma when not first, the quoted
escaped key, then `": "`; the builder moves to the keyed state. -/
theorem jsb_key_obj (buf : List Char) (b : JsbState) (first : Bool) (k : String) :
    jsb_key (objState buf b first) k
      = some (keyedState
          (buf ++ sepComma first ++ '"' :: escList k.toList ++ '"' :: ':' :: ' ' :: [])
          b) := by
  cases first <;>
    simp [jsb_key, objState, keyedState, jsb_pretty, jsb_escaped_string,
      jsb_sappends, jsb_sappend, sepComma, Jsb.level]

/-- `jsb_int` from the keyed state appends the `%d` rendering of the
narrowed argument. -/
theorem jsb_int_keyed (buf : List Char) (b : JsbState) (i : Int) :
    jsb_int (keyedState buf b) i
      = some (objState (buf ++ intDec (toCInt i)) b false) := by
  simp [jsb_int, keyedState, objState, jsb_check_val, jsb_pretty, jsb_sappends]

/-- `jsb_number` from the keyed state appends the `%.*f` rendering, cut to
what the 64-byte buffer holds. -/
theorem jsb_number_keyed (buf : List Char) (b : JsbState) (q : ℚ) (prec : Nat) :
    jsb_number (keyedState buf b) q prec
      = some (objState (buf ++ (numFmt q prec).take 63) b false) := by
  simp [jsb_number, keyedState, objState, jsb_check_val, jsb_pretty, jsb_sappends]

/-- `jsb_bool` from the keyed state appends `true`/`false`. -/
theorem jsb_bool_keyed (buf : List Char) (b : JsbState) (v : Bool) :
    jsb_bool (keyedState buf b) v
      = some (objState (buf ++ (if v then "true".toList else "false".toList)) b false) := by
  cases v <;>
    simp [jsb_bool, keyedState, objState, jsb_check_val, jsb_pretty, jsb_sappends]

/-- `jsb_string` of a non-null string from the keyed state appends the quoted
escaped text. -/
theorem jsb_string_keyed (buf : List Char) (b : JsbState) (s : String) :
    jsb_string (keyedState buf b) (some s)
      = some (objState (buf ++ '"' :: escList s.toList ++ ['"']) b false) := by
  simp [jsb_string, keyedState, objState, jsb_check_val, jsb_pretty,
    jsb_escaped_string]

/-- `jsb_begin_object` on the zero builder without pretty printing. -/
theorem jsb_begin_object_zero :
    jsb_begin_object (jsbZero 0) = some (objState ['{'] .start true) := by
  simp [jsb_begin_object, jsbZero, objState, jsbInitState, Jsb.level,
    jsb_check_val, jsb_pretty, jsb_sappend]

/-- `jsb_end_object` from inside the top-level object closes the document. -/
theorem jsb_end_object_obj (buf : List Char) (b : JsbState) (first : Bool) :
    jsb_end_object (objState buf b first)
      = some { buffer := buf ++ ['}'], stack := [.docEnd], is_first := false,
               is_key := false, pp := 0 } := by
  simp [jsb_end_object, objState, Jsb.level, jsb_pretty, jsb_sappend,
    jsbEndState]


/-- The narrowing conversion is the identity on `int`-range values. -/
theorem toCInt_eq_self (i : Int) (hge : -(2 ^ 31) ≤ i) (hlt : i < 2 ^ 31) :
    toCInt i = i := by
  rw [toCInt, Int.emod_eq_of_lt (by omega) (by omega)]
  omega

/-- At precision 5, the rendering of a value below `10^9` in magnitude fits
the 64-byte format buffer. -/
theorem numFmt_length_le (q : ℚ) (h1 : -((10 : ℚ) ^ 9) < q)
    (h2 : q < (10 : ℚ) ^ 9) : (numFmt q 5).length ≤ 63 := by
  have hx : |q * (10 : ℚ) ^ 5| < 10 ^ 14 := by
    rw [abs_mul, abs_of_pos (show (0 : ℚ) < (10 : ℚ) ^ 5 by norm_num)]
    have habs : |q| < (10 : ℚ) ^ 9 := abs_lt.mpr ⟨h1, h2⟩
    calc |q| * (10 : ℚ) ^ 5 < (10 : ℚ) ^ 9 * (10 : ℚ) ^ 5 :=
          mul_lt_mul_of_pos_right habs (by norm_num)
      _ = 10 ^ 14 := by norm_num
  have hr : |((round (q * (10 : ℚ) ^ 5) : ℤ) : ℚ)| < 10 ^ 14 + 1 / 2 := by
    have h5 := abs_sub_round (q * (10 : ℚ) ^ 5)
    have he : ((round (q * (10 : ℚ) ^ 5) : ℤ) : ℚ)
        = q * (10 : ℚ) ^ 5 + -(q * (10 : ℚ) ^ 5 - round (q * (10 : ℚ) ^ 5)) := by
      ring
    rw [he]
    refine lt_of_le_of_lt (abs_add _ _) ?_
    rw [abs_neg]
    exact add_lt_add_of_lt_of_le hx h5
  have ha : (round (q * (10 : ℚ) ^ 5)).natAbs ≤ 10 ^ 14 := by
    by_contra hcon
    push_neg at hcon
    have hc2 : ((10 ^ 14 + 1 : Nat) : ℚ)
        ≤ ((round (q * (10 : ℚ) ^ 5)).natAbs : ℚ) := by
      exact_mod_cast hcon
    rw [Int.cast_natAbs, Int.cast_abs] at hc2
    push_cast at hc2
    norm_num at hr hc2
    linarith
  have hdiv : (round (q * (10 : ℚ) ^ 5)).natAbs / 10 ^ 5 < 10 ^ 10 := by
    calc (round (q * (10 : ℚ) ^ 5)).natAbs / 10 ^ 5
        ≤ 10 ^ 14 / 10 ^ 5 := Nat.div_le_div_right ha
      _ < 10 ^ 10 := by norm_num
  have hlen1 : (natDec ((round (q * (10 : ℚ) ^ 5)).natAbs / 10 ^ 5)).length ≤ 10 := by
    rw [natDec]
    exact natDecAux_length_le _ _ 10 (Nat.lt_succ_self _) hdiv (by omega)
  have hpad : (padZeros 5
      (natDec ((round (q * (10 : ℚ) ^ 5)).natAbs % 10 ^ 5))).length = 5 := by
    have hlen2 : (natDec ((round (q * (10 : ℚ) ^ 5)).natAbs % 10 ^ 5)).length ≤ 5 := by
      rw [natDec]
      exact natDecAux_length_le _ _ 5 (Nat.lt_succ_self _)
        (Nat.mod_lt _ (by norm_num)) (by omega)
    rw [padZeros, List.length_append, List.length_replicate]
    omega
  have hsign : (if q < 0 then ['-'] else ([] : List Char)).length ≤ 1 := by
    by_cases hq : q < 0
    · rw [if_pos hq]
      simp
    · rw [if_neg hq]
      simp
  have hq5 : (numFmt q 5).length
      = (if q < 0 then ['-'] else ([] : List Char)).length
        + ((natDec ((round (q * (10 : ℚ) ^ 5)).natAbs / 10 ^ 5)).length
          + (1 + (padZeros 5
              (natDec ((round (q * (10 : ℚ) ^ 5)).natAbs % 10 ^ 5))).length)) := by
    simp only [numFmt, List.length_append, List.length_cons]
    omega
  rw [hq5, hpad]
  omega

/-- The buffer truncation is the identity on renderings that fit. -/
theorem numFmt_take (q : ℚ) (h1 : -((10 : ℚ) ^ 9) < q) (h2 : q < (10 : ℚ) ^ 9) :
    (numFmt q 5).take 63 = numFmt q 5 :=
  List.take_of_length_le (le_trans (numFmt_length_le q h1 h2) (by norm_num))

/-- One present well-formed field appends exactly its separator, key and
value text, leaving the builder non-first. -/
theorem stringify_field_ok (nst : String → CVal → Jsb → Option Jsb) (ρ : Rec)
    (f : Field) (buf : List Char) (b : JsbState) (first : Bool)
    (hok : fieldOK f (recGet ρ f.name) = true) (hpres : presB ρ f = true) :
    stringify_field nst ρ f (objState buf b first)
      = some (objState (buf ++ sepComma first ++ fieldPart f (recGet ρ f.name))
          b false) := by
  simp only [fieldOK, Bool.and_eq_true, Bool.not_eq_true'] at hok
  obtain ⟨⟨⟨⟨⟨hicf, harr⟩, hcnt⟩, hlit⟩, halias⟩, hval⟩ := hok
  have hnp : ¬(f.is_pointer = true ∧ cIsNull (recGet ρ f.name) = true) := by
    intro ⟨h1, h2⟩
    rw [presB, h1, h2] at hpres
    simp at hpres
  rw [stringify_field, if_neg (by simp [hicf]), if_neg hnp, jsb_key_obj]
  cases hv : recGet ρ f.name with
  | vint i =>
    rw [hv] at hval
    simp only [valOK, Bool.and_eq_true, Bool.or_eq_true, beq_iff_eq,
      decide_eq_true_eq] at hval
    obtain ⟨⟨htd, hge⟩, hlt⟩ := hval
    have hjt : get_jsb_type f.type = some "int" := by
      rcases htd with (ht | ht) | ht <;> rw [ht] <;> decide
    simp only [hjt]
    simp only [if_neg (show ¬(f.is_json_literal = true) by simp [hlit]),
      topScalarWrite, jsb_int_keyed]
    rw [toCInt_eq_self i hge hlt]
    simp [fieldPart, valChars, List.append_assoc]
  | vnum q =>
    rw [hv] at hval
    simp only [valOK, Bool.and_eq_true, Bool.or_eq_true, beq_iff_eq,
      Nat.beq_eq_true_eq, decide_eq_true_eq] at hval
    obtain ⟨⟨⟨htd, hden⟩, hb1⟩, hb2⟩ := hval
    have hjt : get_jsb_type f.type = some "number" := by
      rcases htd with ht | ht <;> rw [ht] <;> decide
    simp only [hjt]
    simp only [if_neg (show ¬(f.is_json_literal = true) by simp [hlit]),
      topScalarWrite, jsb_number_keyed]
    rw [numFmt_take q hb1 hb2]
    simp [fieldPart, valChars, List.append_assoc]
  | vbool v =>
    rw [hv] at hval
    simp only [valOK, beq_iff_eq] at hval
    have hjt : get_jsb_type f.type = some "bool" := by rw [hval]; decide
    simp only [hjt]
    simp only [if_neg (show ¬(f.is_json_literal = true) by simp [hlit]),
      topScalarWrite, jsb_bool_keyed]
    simp [fieldPart, valChars, List.append_assoc]
  | vstr s =>
    cases s with
    | none =>
      exfalso
      rw [hv] at hval
      simp only [valOK, Bool.and_eq_true, beq_iff_eq] at hval
      exact hnp ⟨hval.2, by rw [hv]; rfl⟩
    | some str =>
      rw [hv] at hval
      simp only [valOK, Bool.and_eq_true, beq_iff_eq] at hval
      have hjt : get_jsb_type f.type = some "string" := by rw [hval.1.1.1]; decide
      simp only [hjt]
      simp only [if_neg (show ¬(f.is_json_literal = true) by simp [hlit]),
        topScalarWrite, jsb_string_keyed]
      simp [fieldPart, valChars, List.append_assoc]
  | varr es => rw [hv] at hval; simp [valOK] at hval
  | vptr w => rw [hv] at hval; simp [valOK] at hval
  | vindet => rw [hv] at hval; simp [valOK] at hval

/-- An absent (null-pointer) field is skipped entirely by stringify. -/
theorem stringify_field_skip (nst : String → CVal → Jsb → Option Jsb) (ρ : Rec)
    (f : Field) (j : Jsb) (hicf : f.is_counter_field = false)
    (hp : presB ρ f = false) :
    stringify_field nst ρ f j = some j := by
  have hp2 : f.is_pointer = true ∧ cIsNull (recGet ρ f.name) = true := by
    have h3 : (f.is_pointer && cIsNull (recGet ρ f.name)) = true := by
      simpa [presB] using hp
    simpa [Bool.and_eq_true] using h3
  rw [stringify_field, if_neg (by simp [hicf]), if_pos hp2]

/-- The field loop of stringify appends exactly the member text. -/
theorem stringify_fields_parts (nst : String → CVal → Jsb → Option Jsb) (ρ : Rec) :
    ∀ (fs : List Field) (buf : List Char) (b : JsbState) (first : Bool),
    (∀ f ∈ fs, fieldOK f (recGet ρ f.name) = true) →
    ∃ first2, stringify_fields nst ρ fs (objState buf b first)
      = some (objState (buf ++ partsFrom ρ fs first) b first2) := by
  intro fs
  induction fs with
  | nil =>
    intro buf b first _
    exact ⟨first, by simp [stringify_fields, partsFrom]⟩
  | cons f fs ih =>
    intro buf b first hok
    have hf := hok f (by simp)
    have hicf : f.is_counter_field = false := by
      simp only [fieldOK, Bool.and_eq_true, Bool.not_eq_true'] at hf
      exact hf.1.1.1.1.1
    by_cases hp : presB ρ f = true
    · rw [stringify_fields.eq_def]
      simp only []
      rw [stringify_field_ok nst ρ f buf b first hf hp]
      simp only []
      obtain ⟨first2, h2⟩ := ih (buf ++ sepComma first ++ fieldPart f (recGet ρ f.name))
        b false (fun g hg => hok g (by simp [hg]))
      refine ⟨first2, ?_⟩
      rw [h2, partsFrom]
      rw [if_pos hp]
      simp [List.append_assoc]
    · have hp' : presB ρ f = false := by
        cases hq : presB ρ f
        · rfl
        · exact absurd hq hp
      rw [stringify_fields.eq_def]
      simp only []
      rw [stringify_field_skip nst ρ f _ hicf hp']
      simp only []
      obtain ⟨first2, h2⟩ := ih buf b first (fun g hg => hok g (by simp [hg]))
      refine ⟨first2, ?_⟩
      rw [h2, partsFrom]
      rw [if_neg (by simp [hp'])]

/-- The emitted `stringify_<name>` of a record of well-formed scalar fields
produces the object text of its present members. -/
theorem stringify_model_parts (nst : String → CVal → Jsb → Option Jsb)
    (m : Model) (ρ : Rec)
    (hok : ∀ f ∈ m.fields, fieldOK f (recGet ρ f.name) = true) :
    stringify_model_top nst m ρ 0
      = some ('{' :: (partsFrom ρ m.fields true ++ ['}'])) := by
  obtain ⟨first2, hf⟩ := stringify_fields_parts nst ρ m.fields ['{'] .start true hok
  rw [stringify_model_top, stringify_model, jsb_begin_object_zero]
  simp only []
  rw [hf]
  simp only []
  rw [jsb_end_object_obj]
  simp


/-- `skipWs` keeps a non-whitespace head. -/
theorem skipWs_cons (c : Char) (l : List Char) (h : isWs c = false) :
    skipWs (c :: l) = c :: l := by
  rw [skipWs.eq_def]
  simp [h]

/-- `skipWs` drops a whitespace head. -/
theorem skipWs_step (c : Char) (l : List Char) (h : isWs c = true) :
    skipWs (c :: l) = skipWs l := by
  rw [skipWs.eq_def]
  simp [h]

/-- `dropComma` consumes a leading comma. -/
theorem dropComma_comma (l : List Char) : dropComma (',' :: l) = skipWs l := by
  rw [dropComma.eq_def]
  simp

/-- `dropComma` keeps a non-comma head. -/
theorem dropComma_other (c : Char) (l : List Char) (h : c ≠ ',') :
    dropComma (c :: l) = c :: l := by
  rw [dropComma.eq_def]
  simp [h]

/-- A list with a mismatching head is not a prefix. -/
theorem not_isPrefixOf_head (aH : Char) (w : List Char) (c : Char) (cs : List Char)
    (h : c ≠ aH) : ¬((aH :: w).isPrefixOf (c :: cs) = true) := by
  rw [List.isPrefixOf]
  simp
  intro he
  exact absurd he.symm h

/-- `jsp_key` on a comma-separated, quoted, escaped key followed by a colon
and the builder's space: the key is read and the cursor stops at the space. -/
theorem jsp_key_reads (p : Jsp) (first : Bool) (a : String) (tail : List Char)
    (ha : ∀ c ∈ a.toList, okChar c = true)
    (hrest : p.rest = sepComma first
      ++ '"' :: (escList a.toList ++ '"' :: ':' :: ' ' :: tail)) :
    jsp_key p = (0, { p with rest := ' ' :: tail, string := some a }) := by
  have hread := strRead_escList a.toList ha [] (':' :: ' ' :: tail)
  simp only [List.reverse_nil, List.nil_append, mk_toList] at hread
  cases first with
  | true =>
    rw [show sepComma true = ([] : List Char) from rfl, List.nil_append] at hrest
    rw [jsp_key.eq_def, hrest, skipWs_cons '"' _ (by decide)]
    simp only []
    rw [if_neg (by decide), dropComma_other '"' _ (by decide)]
    simp only []
    rw [if_pos (by trivial), hread]
    simp only []
    rw [skipWs_cons ':' _ (by decide)]
    simp only []
    rw [if_pos (by trivial)]
  | false =>
    rw [show sepComma false = [','] from rfl, List.singleton_append] at hrest
    rw [jsp_key.eq_def, hrest, skipWs_cons ',' _ (by decide)]
    simp only []
    rw [if_neg (by decide), dropComma_comma, skipWs_cons '"' _ (by decide)]
    simp only []
    rw [if_pos (by trivial), hread]
    simp only []
    rw [skipWs_cons ':' _ (by decide)]
    simp only []
    rw [if_pos (by trivial)]

/-- `jsp_key` at the closing brace returns the sentinel without consuming. -/
theorem jsp_key_brace (p : Jsp) (tail : List Char) (hrest : p.rest = '}' :: tail) :
    jsp_key p = (1, { p with rest := '}' :: tail }) := by
  rw [jsp_key.eq_def, hrest, skipWs_cons '}' _ (by decide)]
  simp only []
  rw [if_pos (by trivial)]

/-- `jsp_begin_object` at an opening brace. -/
theorem jsp_begin_object_brace (p : Jsp) (tail : List Char)
    (hrest : p.rest = '{' :: tail) :
    jsp_begin_object p = (0, { p with rest := tail }) := by
  rw [jsp_begin_object, hrest, skipWs_cons '{' _ (by decide)]
  simp

/-- `jsp_end_object` at a closing brace. -/
theorem jsp_end_object_brace (p : Jsp) (tail : List Char)
    (hrest : p.rest = '}' :: tail) :
    jsp_end_object p = (0, { p with rest := tail }) := by
  rw [jsp_end_object, hrest, skipWs_cons '}' _ (by decide)]
  simp

/-- `jsp_value` on a quoted escaped string reads it back. -/
theorem jsp_value_str (p : Jsp) (s : String) (tail : List Char)
    (hs : ∀ c ∈ s.toList, okChar c = true)
    (hrest : p.rest = ' ' :: '"' :: (escList s.toList ++ '"' :: tail)) :
    jsp_value p
      = (0, { p with rest := tail, string := some s, vtype := .tstring }) := by
  have hread := strRead_escList s.toList hs [] tail
  simp only [List.reverse_nil, List.nil_append, mk_toList] at hread
  rw [jsp_value.eq_def, hrest, skipWs_step _ _ (by decide),
    skipWs_cons '"' _ (by decide), dropComma_other '"' _ (by decide)]
  simp only []
  rw [if_pos (by trivial), hread]

/-- `jsp_value` on number text followed by a comma or closing brace. -/
theorem jsp_value_numText (p : Jsp) (nl : List Char) (q : ℚ) (c : Char)
    (tail : List Char) (hhead : ∃ d ds, nl = d :: ds ∧ (isDig d = true ∨ d = '-'))
    (hread : numRead (nl ++ c :: tail) = some (q, c :: tail))
    (hrest : p.rest = ' ' :: (nl ++ c :: tail)) :
    jsp_value p
      = (0, { p with rest := c :: tail, number := q, vtype := .tnumber }) := by
  obtain ⟨d, ds, hnl, hd⟩ := hhead
  have hne : d ≠ ',' ∧ d ≠ '"' ∧ d ≠ '{' ∧ d ≠ '[' ∧ d ≠ 't' ∧ d ≠ 'f' ∧ d ≠ 'n'
      ∧ isWs d = false := by
    rcases hd with hd | hd
    · exact ⟨isDig_ne d ',' hd (by decide), isDig_ne d '"' hd (by decide),
        isDig_ne d '{' hd (by decide), isDig_ne d '[' hd (by decide),
        isDig_ne d 't' hd (by decide), isDig_ne d 'f' hd (by decide),
        isDig_ne d 'n' hd (by decide), isDig_not_ws d hd⟩
    · subst hd
      exact ⟨by decide, by decide, by decide, by decide, by decide, by decide,
        by decide, by decide⟩
  obtain ⟨h1, h2, h3, h4, h5, h6, h7, h8⟩ := hne
  rw [jsp_value.eq_def, hrest, hnl, List.cons_append, skipWs_step _ _ (by decide),
    skipWs_cons d _ h8, dropComma_other d _ h1]
  simp only []
  rw [if_neg h2, if_neg h3, if_neg h4,
    show "true".toList = 't' :: ['r', 'u', 'e'] from by decide,
    show "false".toList = 'f' :: ['a', 'l', 's', 'e'] from by decide,
    show "null".toList = 'n' :: ['u', 'l', 'l'] from by decide,
    if_neg (not_isPrefixOf_head 't' _ d _ h5),
    if_neg (not_isPrefixOf_head 'f' _ d _ h6),
    if_neg (not_isPrefixOf_head 'n' _ d _ h7),
    ← List.cons_append, ← hnl, hread]

/-- `jsp_value` on the literal `true`. -/
theorem jsp_value_true (p : Jsp) (tail : List Char)
    (hrest : p.rest = ' ' :: 't' :: 'r' :: 'u' :: 'e' :: tail) :
    jsp_value p = (0, { p with rest := tail, boolean := true, vtype := .tbool }) := by
  rw [jsp_value.eq_def, hrest, skipWs_step _ _ (by decide),
    skipWs_cons 't' _ (by decide), dropComma_other 't' _ (by decide)]
  simp only []
  rw [if_neg (by decide), if_neg (by decide), if_neg (by decide),
    if_pos (show "true".toList.isPrefixOf ('t' :: 'r' :: 'u' :: 'e' :: tail) = true
      from by simp [List.isPrefixOf])]
  simp

/-- `jsp_value` on the literal `false`. -/
theorem jsp_value_false (p : Jsp) (tail : List Char)
    (hrest : p.rest = ' ' :: 'f' :: 'a' :: 'l' :: 's' :: 'e' :: tail) :
    jsp_value p = (0, { p with rest := tail, boolean := false, vtype := .tbool }) := by
  rw [jsp_value.eq_def, hrest, skipWs_step _ _ (by decide),
    skipWs_cons 'f' _ (by decide), dropComma_other 'f' _ (by decide)]
  simp only []
  rw [if_neg (by decide), if_neg (by decide), if_neg (by decide),
    if_neg (show ¬("true".toList.isPrefixOf ('f' :: 'a' :: 'l' :: 's' :: 'e' :: tail)
      = true) from by simp [List.isPrefixOf]),
    if_pos (show "false".toList.isPrefixOf ('f' :: 'a' :: 'l' :: 's' :: 'e' :: tail)
      = true from by simp [List.isPrefixOf])]
  simp


/-- Reading back a just-written member. -/
theorem recGet_recSet_eq (ρ : Rec) (nm : String) (v : CVal) :
    recGet (recSet ρ nm v) nm = v := by
  induction ρ with
  | nil => simp [recSet, recGet]
  | cons hd tl ih =>
    obtain ⟨m, w⟩ := hd
    by_cases hm : m = nm
    · subst hm
      simp [recSet, recGet]
    · rw [recSet.eq_def]
      simp only []
      rw [if_neg hm, recGet.eq_def]
      simp only []
      rw [if_neg hm]
      exact ih

/-- The emitted key dispatch finds a non-counter field by its own alias when
aliases are distinct. -/
theorem findField_self (fields : List Field) (f : Field) (hmem : f ∈ fields)
    (hicf : f.is_counter_field = false)
    (hnd : (fields.map js_getalias).Nodup) :
    findField fields (js_getalias f) = some f := by
  induction fields with
  | nil => cases hmem
  | cons g gs ih =>
    simp only [List.map_cons, List.nodup_cons] at hnd
    by_cases hgf : g = f
    · subst hgf
      rw [findField, List.find?_cons_of_pos]
      simp [hicf]
    · have hfm : f ∈ gs := by
        rcases List.mem_cons.mp hmem with he | he
        · exact absurd he.symm hgf
        · exact he
      have hga : js_getalias g ≠ js_getalias f := by
        intro he
        exact hnd.1 (he ▸ List.mem_map_of_mem js_getalias hfm)
      rw [findField, List.find?_cons_of_neg, ← findField]
      · exact ih hfm hnd.2
      · simp [hga]

/-- The member text of a non-first suffix, closed by the brace, starts with a
comma or the closing brace. -/
theorem partsClose_head (ρ : Rec) : ∀ (sfx : List Field),
    ∃ c cs2, partsFrom ρ sfx false ++ ['}'] = c :: cs2 ∧ (c = ',' ∨ c = '}') := by
  intro sfx
  induction sfx with
  | nil => exact ⟨'}', [], rfl, Or.inr rfl⟩
  | cons f fs ih =>
    by_cases hp : presB ρ f = true
    · refine ⟨',', fieldPart f (recGet ρ f.name) ++ (partsFrom ρ fs false ++ ['}']),
        ?_, Or.inl rfl⟩
      rw [partsFrom.eq_def]
      simp only []
      rw [if_pos hp]
      simp [sepComma, List.append_assoc]
    · rw [partsFrom.eq_def]
      simp only []
      rw [if_neg hp]
      exact ih

/-- Unfolding of the emitted write-back over a leading field. -/
theorem writeBack_cons (ρ : Rec) (f : Field) (sfx : List Field) (ρc : Rec) :
    writeBack ρ (f :: sfx) ρc
      = writeBack ρ sfx
          (if presB ρ f then recSet ρc f.name (recGet ρ f.name) else ρc) := by
  rw [writeBack, writeBack, List.foldl_cons]

/-- The write-back does not touch members outside the written names. -/
theorem writeBack_get_notin (ρ : Rec) : ∀ (sfx : List Field) (r : Rec) (nm : String),
    nm ∉ sfx.map Field.name → recGet (writeBack ρ sfx r) nm = recGet r nm := by
  intro sfx
  induction sfx with
  | nil => intro r nm _; rfl
  | cons f fs ih =>
    intro r nm hnm
    simp only [List.map_cons, List.mem_cons, not_or] at hnm
    rw [writeBack_cons]
    rw [ih _ nm hnm.2]
    by_cases hp : presB ρ f = true
    · rw [if_pos hp, recGet_recSet_ne _ _ _ _ (fun he => hnm.1 he.symm)]
    · rw [if_neg hp]

/-- After the write-back of every present field over a record that already
agrees on the absent ones, every member holds its original value. -/
theorem writeBack_get (ρ ρc : Rec) : ∀ (fs : List Field),
    (fs.map Field.name).Nodup →
    (∀ f ∈ fs, presB ρ f = false → recGet ρc f.name = recGet ρ f.name) →
    ∀ f ∈ fs, recGet (writeBack ρ fs ρc) f.name = recGet ρ f.name := by
  intro fs
  induction fs generalizing ρc with
  | nil => intro _ _ f hf; cases hf
  | cons g gs ih =>
    intro hnd habs f hf
    simp only [List.map_cons, List.nodup_cons] at hnd
    rw [writeBack_cons]
    rcases List.mem_cons.mp hf with he | he
    · subst he
      rw [writeBack_get_notin ρ gs _ f.name hnd.1]
      by_cases hp : presB ρ f = true
      · rw [if_pos hp, recGet_recSet_eq]
      · rw [if_neg hp]
        exact habs f (by simp) (Bool.eq_false_iff.mpr hp)
    · have hne : g.name ≠ f.name := by
        intro heq
        exact hnd.1 (heq ▸ List.mem_map_of_mem Field.name he)
      refine ih _ hnd.2 ?_ f he
      intro f2 hf2 hpf2
      by_cases hp : presB ρ g = true
      · rw [if_pos hp]
        by_cases hn2 : g.name = f2.name
        · rw [← hn2, recGet_recSet_eq, hn2]
        · rw [recGet_recSet_ne _ _ _ _ hn2]
          exact habs f2 (by simp [hf2]) hpf2
      · rw [if_neg hp]
        exact habs f2 (by simp [hf2]) hpf2


/-- The `%d` rendering starts with a digit or the minus sign. -/
theorem intDec_head (i : Int) :
    ∃ d ds, intDec i = d :: ds ∧ (isDig d = true ∨ d = '-') := by
  by_cases hneg : i < 0
  · exact ⟨'-', natDec i.natAbs, by rw [intDec, if_pos hneg]; rfl, Or.inr rfl⟩
  · obtain ⟨c, cs, hc, hd⟩ := natDecAux_cons (i.natAbs + 1) i.natAbs (Nat.lt_succ_self _)
    refine ⟨c, cs, ?_, Or.inl hd⟩
    rw [intDec, if_neg hneg, List.nil_append, natDec]
    exact hc

/-- The `%.*f` rendering starts with a digit or the minus sign. -/
theorem numFmt_head (q : ℚ) :
    ∃ d ds, numFmt q 5 = d :: ds ∧ (isDig d = true ∨ d = '-') := by
  by_cases hneg : q < 0
  · refine ⟨'-', natDec ((round (q * (10 : ℚ) ^ 5)).natAbs / 10 ^ 5)
      ++ '.' :: padZeros 5 (natDec ((round (q * (10 : ℚ) ^ 5)).natAbs % 10 ^ 5)),
      ?_, Or.inr rfl⟩
    simp only [numFmt]
    rw [if_pos hneg]
    rfl
  · obtain ⟨c, cs, hc, hd⟩ := natDecAux_cons
      ((round (q * (10 : ℚ) ^ 5)).natAbs / 10 ^ 5 + 1)
      ((round (q * (10 : ℚ) ^ 5)).natAbs / 10 ^ 5) (Nat.lt_succ_self _)
    refine ⟨c, cs ++ '.' :: padZeros 5
      (natDec ((round (q * (10 : ℚ) ^ 5)).natAbs % 10 ^ 5)), ?_, Or.inl hd⟩
    simp only [numFmt]
    rw [if_neg hneg, List.nil_append, natDec, hc]
    rfl

/-- A comma or closing brace terminates a number. -/
theorem numStop_cc (c : Char) (tail : List Char) (hc : c = ',' ∨ c = '}') :
    numStop (c :: tail) = true := by
  rcases hc with h | h <;> subst h <;> (rw [numStop.eq_def]; simp only []; decide)

/-- The emitted field body on the value text stringify produced for a present
well-formed field: the member is written back with its original value and the
cursor stops at the terminator. -/
theorem parse_field_body_reads (nst : String → Jsp → CVal → Int × Jsp × CVal)
    (f : Field) (v : CVal) (p : Jsp) (ρc : Rec) (c : Char) (tail : List Char)
    (hc : c = ',' ∨ c = '}')
    (hok : fieldOK f v = true) (hnn : cIsNull v = false)
    (hrest : p.rest = ' ' :: (valChars v ++ c :: tail)) :
    ∃ p', parse_field_body nst f p ρc = .cont p' (recSet ρc f.name v)
      ∧ p'.rest = c :: tail := by
  simp only [fieldOK, Bool.and_eq_true, Bool.not_eq_true'] at hok
  obtain ⟨⟨⟨⟨⟨hicf, harr⟩, hcnt⟩, hlit⟩, halias⟩, hval⟩ := hok
  have hstop := numStop_cc c tail hc
  cases v with
  | vint i =>
    simp only [valOK, Bool.and_eq_true, Bool.or_eq_true, beq_iff_eq,
      decide_eq_true_eq] at hval
    obtain ⟨⟨htd, hge⟩, hlt⟩ := hval
    have hjt : get_jsp_type f.type = some "number" := by
      rcases htd with (ht | ht) | ht <;> rw [ht] <;> decide
    have hvv : jsp_value p
        = (0, { p with rest := c :: tail, number := (i : ℚ), vtype := .tnumber }) := by
      apply jsp_value_numText p (intDec i) (i : ℚ) c tail (intDec_head i)
        (numRead_intDec i _ hstop)
      rw [hrest]
      simp [valChars]
    rw [parse_field_body.eq_def, hjt]
    simp only []
    rw [hvv]
    simp only []
    rw [if_pos (by trivial), if_neg (by decide : ¬("number" = "string"))]
    refine ⟨{ p with rest := c :: tail, number := (i : ℚ), vtype := .tnumber }, ?_, rfl⟩
    have hsa : scalarAssign "number" f.type { p with rest := c :: tail, number := (i : ℚ), vtype := .tnumber } = CVal.vint i := by
      rcases htd with (ht | ht) | ht <;>
        (rw [scalarAssign, ht, if_neg (by decide), if_pos (by decide)]
         simp [cDoubleToInt_intCast])
    rw [hsa]
  | vnum q =>
    simp only [valOK, Bool.and_eq_true, Bool.or_eq_true, beq_iff_eq,
      Nat.beq_eq_true_eq, decide_eq_true_eq] at hval
    obtain ⟨⟨⟨htd, hden⟩, hb1⟩, hb2⟩ := hval
    have hjt : get_jsp_type f.type = some "number" := by
      rcases htd with ht | ht <;> rw [ht] <;> decide
    have hvv : jsp_value p
        = (0, { p with rest := c :: tail, number := q, vtype := .tnumber }) := by
      apply jsp_value_numText p (numFmt q 5) q c tail (numFmt_head q)
        (numRead_numFmt q hden _ hstop)
      rw [hrest]
      simp [valChars]
    rw [parse_field_body.eq_def, hjt]
    simp only []
    rw [hvv]
    simp only []
    rw [if_pos (by trivial), if_neg (by decide : ¬("number" = "string"))]
    refine ⟨{ p with rest := c :: tail, number := q, vtype := .tnumber }, ?_, rfl⟩
    have hsa : scalarAssign "number" f.type { p with rest := c :: tail, number := q, vtype := .tnumber } = CVal.vnum q := by
      rcases htd with ht | ht <;>
        rw [scalarAssign, ht, if_neg (by decide), if_neg (by decide),
          if_pos (by decide)]
    rw [hsa]
  | vbool b =>
    simp only [valOK, beq_iff_eq] at hval
    have hjt : get_jsp_type f.type = some "boolean" := by rw [hval]; decide
    have hvv : jsp_value p
        = (0, { p with rest := c :: tail, boolean := b, vtype := .tbool }) := by
      cases b with
      | true =>
        apply jsp_value_true
        rw [hrest]
        rw [show valChars (CVal.vbool true) = ['t', 'r', 'u', 'e'] from rfl]
        rfl
      | false =>
        apply jsp_value_false
        rw [hrest]
        rw [show valChars (CVal.vbool false) = ['f', 'a', 'l', 's', 'e'] from rfl]
        rfl
    rw [parse_field_body.eq_def, hjt]
    simp only []
    rw [hvv]
    simp only []
    rw [if_pos (by trivial), if_neg (by decide : ¬("boolean" = "string"))]
    refine ⟨{ p with rest := c :: tail, boolean := b, vtype := .tbool }, ?_, rfl⟩
    have hsa : scalarAssign "boolean" f.type { p with rest := c :: tail, boolean := b, vtype := .tbool } = CVal.vbool b := by
      rw [scalarAssign, if_pos (by decide)]
    rw [hsa]
  | vstr s =>
    cases s with
    | none => simp [cIsNull] at hnn
    | some str =>
      simp only [valOK, Bool.and_eq_true, beq_iff_eq, bne_iff_ne, ne_eq,
        List.all_eq_true] at hval
      obtain ⟨⟨⟨ht, hptr⟩, hlen⟩, hall⟩ := hval
      have hjt : get_jsp_type f.type = some "string" := by rw [ht]; decide
      have hall' : ∀ ch ∈ str.toList, okChar ch = true := by
        intro ch hch
        simpa using hall ch hch
      have hvv : jsp_value p
          = (0, { p with rest := c :: tail, string := some str, vtype := .tstring }) := by
        apply jsp_value_str p str (c :: tail) hall'
        rw [hrest]
        simp [valChars, List.append_assoc]
      rw [parse_field_body.eq_def, hjt]
      simp only []
      rw [hvv]
      simp only []
      rw [if_pos (by trivial), if_pos (by trivial)]
      rw [litStep, if_neg (by simp [hlit])]
      simp only []
      rw [strCopyStep, if_pos hptr]
      simp only []
      rw [if_pos (Nat.pos_of_ne_zero hlen), if_neg (by simp [hcnt])]
      exact ⟨{ p with rest := c :: tail, string := some str, vtype := .tstring }, rfl, rfl⟩
  | varr es => simp [valOK] at hval
  | vptr w => simp [valOK] at hval
  | vindet => simp [valOK] at hval


/-- The emitted parse loop over the member text stringify produced: every
present field of the suffix is written back with its original value and the
loop stops cleanly at the closing brace. -/
theorem parse_loop_parts (nst : String → Jsp → CVal → Int × Jsp × CVal)
    (fields : List Field) (ρ : Rec)
    (hok : ∀ f ∈ fields, fieldOK f (recGet ρ f.name) = true)
    (hnd : (fields.map js_getalias).Nodup) :
    ∀ (sfx : List Field) (fuel : Nat), sfx.length < fuel →
    (∀ f ∈ sfx, f ∈ fields) →
    ∀ (first : Bool) (st : Option String) (n : ℚ) (bb : Bool) (ty : JspType)
      (ρc : Rec),
    ∃ p', parse_loop nst fields fuel
        ⟨partsFrom ρ sfx first ++ ['}'], st, n, bb, ty⟩ ρc
      = some (0, p', writeBack ρ sfx ρc) := by
  intro sfx
  induction sfx with
  | nil =>
    intro fuel hfuel hsub first st n bb ty ρc
    cases fuel with
    | zero => omega
    | succ fuel =>
      have h0 : partsFrom ρ ([] : List Field) first = [] := by
        rw [partsFrom.eq_def]
      rw [h0, List.nil_append]
      refine ⟨⟨[], st, n, bb, ty⟩, ?_⟩
      rw [parse_loop, parse_step, jsp_key_brace ⟨['}'], st, n, bb, ty⟩ [] rfl]
      simp only []
      rw [if_neg (by decide : ¬((1 : Int) = 0))]
      simp only []
      rw [jsp_end_object_brace _ [] rfl]
      rfl
  | cons f sfx ih =>
    intro fuel hfuel hsub first st n bb ty ρc
    have hfmem : f ∈ fields := hsub f (by simp)
    have hokf := hok f hfmem
    have hicf : f.is_counter_field = false := by
      simp only [fieldOK, Bool.and_eq_true, Bool.not_eq_true'] at hokf
      exact hokf.1.1.1.1.1
    have halias : ∀ ch ∈ (js_getalias f).toList, okChar ch = true := by
      have hokf3 := hok f hfmem
      simp only [fieldOK, Bool.and_eq_true, List.all_eq_true] at hokf3
      intro ch hch
      simpa using hokf3.1.2 ch hch
    by_cases hp : presB ρ f = true
    · cases fuel with
      | zero => simp at hfuel
      | succ fuel =>
        obtain ⟨c2, cs2, hsplit, hcc⟩ := partsClose_head ρ sfx
        have hnn : cIsNull (recGet ρ f.name) = false := by
          by_contra hq
          have hq' : cIsNull (recGet ρ f.name) = true := by
            revert hq
            cases cIsNull (recGet ρ f.name) <;> simp
          have hokf2 := hok f hfmem
          simp only [fieldOK, Bool.and_eq_true] at hokf2
          have hvo := hokf2.2
          have hptr : f.is_pointer = true := by
            cases hv : recGet ρ f.name with
            | vstr s =>
              cases s with
              | none =>
                rw [hv] at hvo
                simp only [valOK, Bool.and_eq_true, beq_iff_eq] at hvo
                exact hvo.2
              | some s2 =>
                rw [hv] at hq'
                simp [cIsNull] at hq'
            | vptr w =>
              cases w with
              | none =>
                rw [hv] at hvo
                simp [valOK] at hvo
              | some w2 =>
                rw [hv] at hq'
                simp [cIsNull] at hq'
            | vint i =>
              rw [hv] at hq'
              simp [cIsNull] at hq'
            | vnum q2 =>
              rw [hv] at hq'
              simp [cIsNull] at hq'
            | vbool b2 =>
              rw [hv] at hq'
              simp [cIsNull] at hq'
            | varr es =>
              rw [hv] at hq'
              simp [cIsNull] at hq'
            | vindet =>
              rw [hv] at hq'
              simp [cIsNull] at hq'
          rw [presB, hptr, hq'] at hp
          simp at hp
        have htext : partsFrom ρ (f :: sfx) first ++ ['}']
            = sepComma first ++ '"' :: (escList (js_getalias f).toList
              ++ '"' :: ':' :: ' ' :: (valChars (recGet ρ f.name)
                ++ (partsFrom ρ sfx false ++ ['}']))) := by
          rw [partsFrom.eq_def]
          simp only []
          rw [if_pos hp]
          simp [fieldPart, List.append_assoc]
        have hkey : jsp_key ⟨partsFrom ρ (f :: sfx) first ++ ['}'], st, n, bb, ty⟩
            = (0, ⟨' ' :: (valChars (recGet ρ f.name)
                ++ (partsFrom ρ sfx false ++ ['}'])),
                some (js_getalias f), n, bb, ty⟩) :=
          jsp_key_reads ⟨partsFrom ρ (f :: sfx) first ++ ['}'], st, n, bb, ty⟩
            first (js_getalias f)
            (valChars (recGet ρ f.name) ++ (partsFrom ρ sfx false ++ ['}']))
            halias htext
        obtain ⟨p2, hbody, hrest2⟩ := parse_field_body_reads nst f
          (recGet ρ f.name)
          ⟨' ' :: (valChars (recGet ρ f.name) ++ (partsFrom ρ sfx false ++ ['}'])),
           some (js_getalias f), n, bb, ty⟩ ρc c2 cs2 hcc (hok f hfmem) hnn
          (by simp only []; rw [hsplit])
        obtain ⟨r2, s2, n2, b2, t2⟩ := p2
        simp only [] at hrest2
        rw [← hsplit] at hrest2
        subst hrest2
        obtain ⟨p3, hp3⟩ := ih fuel
          (by simp only [List.length_cons] at hfuel; omega)
          (fun g hg => hsub g (by simp [hg]))
          false s2 n2 b2 t2 (recSet ρc f.name (recGet ρ f.name))
        refine ⟨p3, ?_⟩
        rw [parse_loop, parse_step, hkey]
        simp only []
        rw [if_pos (by trivial),
          show ((some (js_getalias f)).getD "") = js_getalias f from rfl,
          findField_self fields f hfmem hicf hnd]
        simp only []
        rw [hbody]
        simp only []
        rw [writeBack_cons, if_pos hp]
        exact hp3
    · have hpf : presB ρ f = false := by
        revert hp
        cases presB ρ f <;> simp
      have hskip : partsFrom ρ (f :: sfx) first = partsFrom ρ sfx first := by
        rw [partsFrom.eq_def]
        simp only []
        rw [if_neg (by simp [hpf])]
      rw [hskip]
      have hwb : writeBack ρ (f :: sfx) ρc = writeBack ρ sfx ρc := by
        rw [writeBack_cons, if_neg (by simp [hpf])]
      rw [hwb]
      exact ih fuel (by simp only [List.length_cons] at hfuel; omega)
        (fun g hg => hsub g (by simp [hg])) first st n bb ty ρc


/-- C1: the spec's unconditional scalar round trip fails — a member holding
the empty string is stringified as `""` but parsed back as NULL (the emitted
copy writes NULL on length zero), so the parsed record differs from the
original. -/
theorem claim_C1_cex :
    stringify_model_top nstNone c1CexModel c1CexRec 0 = some c1CexOut
    ∧ (parse_model_top nstFail c1CexModel.fields 2 c1CexOut c1CexZero).map
        (fun r => (r.1, r.2.2))
      = some (0, [("s", CVal.vstr none)])
    ∧ recGet c1CexRec "s" ≠ CVal.vstr none := by
  refine ⟨rfl, rfl, ?_⟩
  intro h
  rw [show recGet c1CexRec "s" = CVal.vstr (some "") from rfl] at h
  injection h with h2
  cases h2

/-- C1 (amended): for a model of scalar-kind fields with distinct member
names and distinct JSON keys, whose stored values agree with the declared
types, whose numbers are exact at the emitter's fixed five-digit precision,
and whose strings are null or nonempty and free of the characters the
escaper drops, the generated parse applied to the generated stringify output
restores every member — absent members (null strings) keeping their
zero-initialized value. -/
theorem claim_C1 (nstS : String → CVal → Jsb → Option Jsb)
    (nstP : String → Jsp → CVal → Int × Jsp × CVal)
    (m : Model) (ρ ρz : Rec) (out : List Char)
    (_hgen : m.stringify = true ∧ m.parse = true)
    (hok : ∀ f ∈ m.fields, fieldOK f (recGet ρ f.name) = true)
    (hnda : (m.fields.map js_getalias).Nodup)
    (hndn : (m.fields.map Field.name).Nodup)
    (hz : ∀ f ∈ m.fields, presB ρ f = false → recGet ρz f.name = recGet ρ f.name)
    (hs : stringify_model_top nstS m ρ 0 = some out) :
    ∃ p' ρ', parse_model_top nstP m.fields (m.fields.length + 1) out ρz
        = some (0, p', ρ')
      ∧ ∀ f ∈ m.fields, recGet ρ' f.name = recGet ρ f.name := by
  rw [stringify_model_parts nstS m ρ hok] at hs
  injection hs with hs
  subst hs
  obtain ⟨p', hloop⟩ := parse_loop_parts nstP m.fields ρ hok hnda m.fields
    (m.fields.length + 1) (Nat.lt_succ_self _) (fun f hf => hf)
    true none 0 false .tnone ρz
  refine ⟨p', writeBack ρ m.fields ρz, ?_, ?_⟩
  · rw [parse_model_top, parse_model_fn,
      jsp_begin_object_brace _ (partsFrom ρ m.fields true ++ ['}']) rfl]
    simp only []
    rw [if_pos (by trivial)]
    exact hloop
  · exact writeBack_get ρ ρz m.fields hndn hz

/-- Witness for the amended C1 at a four-field model (int, double, bool,
string): all hypotheses hold and the parse of the stringify output restores
the record. -/
theorem claim_C1_w :
    ((c1Model.stringify = true ∧ c1Model.parse = true)
      ∧ (∀ f ∈ c1Model.fields, fieldOK f (recGet c1Rec f.name) = true)
      ∧ (c1Model.fields.map js_getalias).Nodup
      ∧ (c1Model.fields.map Field.name).Nodup
      ∧ (∀ f ∈ c1Model.fields, presB c1Rec f = false →
          recGet c1Zero f.name = recGet c1Rec f.name)
      ∧ stringify_model_top nstNone c1Model c1Rec 0 = some c1OutChars)
    ∧ (∃ p' ρ', parse_model_top nstFail c1Model.fields
          (c1Model.fields.length + 1) c1OutChars c1Zero = some (0, p', ρ')
        ∧ ∀ f ∈ c1Model.fields, recGet ρ' f.name = recGet c1Rec f.name) := by
  have hden : (((5 : ℚ) / 4) * (10 : ℚ) ^ 5).den = 1 := by
    rw [show ((5 : ℚ) / 4) * (10 : ℚ) ^ 5 = (125000 : ℚ) from by norm_num]
    simp
  have hok4 : ∀ f ∈ c1Model.fields, fieldOK f (recGet c1Rec f.name) = true := by
    intro f hf
    simp only [c1Model, c1Fields, List.mem_cons, List.not_mem_nil, or_false] at hf
    rcases hf with rfl | rfl | rfl | rfl
    · decide
    · simp [fieldOK, valOK, fieldZero, js_getalias, okChar, recGet, c1Rec, hden]
      norm_num
    · decide
    · decide
  have hz4 : ∀ f ∈ c1Model.fields, presB c1Rec f = false →
      recGet c1Zero f.name = recGet c1Rec f.name := by
    intro f hf hpf
    simp only [c1Model, c1Fields, List.mem_cons, List.not_mem_nil, or_false] at hf
    rcases hf with rfl | rfl | rfl | rfl <;> exact absurd hpf (by decide)
  have hout : stringify_model_top nstNone c1Model c1Rec 0 = some c1OutChars := by
    rw [stringify_model_parts nstNone c1Model c1Rec hok4]
    have hnum : numFmt ((5 : ℚ) / 4) 5 = ['1', '.', '2', '5', '0', '0', '0'] := by
      norm_num [numFmt]
      decide
    simp [c1Model, c1Fields, c1Rec, c1OutChars, partsFrom, presB, recGet,
      fieldPart, valChars, sepComma, js_getalias, escList, jsb_escape_char,
      fieldZero, cIsNull, hnum, intDec, natDec, natDecAux, digitChar]
  exact ⟨⟨⟨rfl, rfl⟩, hok4, by decide, by decide, hz4, hout⟩,
    claim_C1 nstNone nstFail c1Model c1Rec c1Zero c1OutChars ⟨rfl, rfl⟩ hok4
      (by decide) (by decide) hz4 hout⟩

end Jsgen
